import Mathlib

set_option maxRecDepth 40000
set_option maxHeartbeats 1600000

/-!
# PrivacyKit SDK — formal model of the adapter layer

Shallow embedding of the core client-side logic of the PrivacyKit SDK
(`packages/sdk/src`): the byte/hex helpers and the `retry` combinator from
`utils/index.ts`, the `PrivacyCashAdapter` (pool deposit/withdraw/transfer,
note encoding, instruction layout), the `ShadowWireAdapter` (remote-API
operations), and the `ArciumAdapter` (MPC transfer), as far as the checked
claims need them.

Modelling conventions:
* JS strings are `List Char`; byte buffers (`Uint8Array`/`Buffer`) are
  `List Nat` whose elements are `< 256` wherever the source guarantees it.
* JS numbers used as token amounts are `ℚ`; integer counters and timestamps
  are `Nat`.  `JSON.stringify`'s rendering of numbers is modelled for
  non-negative integral values (the only ones the round-trip theorems use).
* Asynchronous I/O (RPC, HTTP, wallet signing, randomness, clocks) is passed
  in as explicit oracle arguments; each operation returns its outcome
  together with the list of externally visible effects it performed, so
  "fails before anything is signed" is a statement about that list.
-/

/-! ## Bytes, hex and decimal helpers (`utils/index.ts`) -/

/-- A JS string, modelled as its list of characters. -/
abbrev Str := List Char

/-- Shorthand turning a Lean string literal into the model's string type. -/
def str (s : String) : Str := s.data

/-- Value of an ASCII hex digit, `none` for any other character
(`parseInt` treats such a character as ending the numeral). -/
def hexDigitVal (c : Char) : Option Nat :=
  if '0' ≤ c ∧ c ≤ '9' then some (c.toNat - 48)
  else if 'a' ≤ c ∧ c ≤ 'f' then some (c.toNat - 87)
  else if 'A' ≤ c ∧ c ≤ 'F' then some (c.toNat - 55)
  else none

/-- The `parseInt(two-char slice, 16)` as used by `hexToBytes`: parses the longest
valid leading run of the two characters; a fully invalid slice gives `NaN`,
which a `Uint8Array` store coerces to `0`. -/
def hexPairVal (c1 c2 : Char) : Nat :=
  match hexDigitVal c1 with
  | none => 0
  | some v1 =>
    match hexDigitVal c2 with
    | none => v1
    | some v2 => 16 * v1 + v2

/-- Core of `hexToBytes`: consume the character list two at a time.
A trailing lone character yields `cleanHex.length / 2` full bytes in the
source (integer division), so it is dropped here as well. -/
def hexPairs : Str → List Nat
  | c1 :: c2 :: rest => hexPairVal c1 c2 :: hexPairs rest
  | _ => []

/-- The `hexToBytes` from `utils/index.ts`: strips a leading `0x`, then decodes
hex pairs. -/
def hexToBytes (hex : Str) : List Nat :=
  match hex with
  | '0' :: 'x' :: rest => hexPairs rest
  | l => hexPairs l

/-- The lowercase hex digit for a value `< 16` (`Number.toString(16)`). -/
def hexChar (n : Nat) : Char := (str "0123456789abcdef").getD n '?'

/-- One byte rendered as two lowercase hex characters
(`b.toString(16).padStart(2, '0')`; bytes from a `Uint8Array` are `< 256`). -/
def byteHex (b : Nat) : Str := [hexChar (b / 16), hexChar (b % 16)]

/-- The `bytesToHex` from `utils/index.ts`. -/
def bytesToHex (bytes : List Nat) : Str := bytes.flatMap byteHex

/-- Big-endian value of a byte list: the integer a 32-byte buffer denotes. -/
def beValue (bytes : List Nat) : Nat := bytes.foldl (fun a b => a * 256 + b) 0

/-- ASCII uppercase of a string (`String.prototype.toUpperCase`). -/
def upper (s : Str) : Str := s.map Char.toUpper

/-- Decimal digits, most significant first, with a structural fuel bound so
the definition evaluates inside the kernel (`fuel = n` always suffices). -/
def decDigitsAux : Nat → Nat → List Nat
  | 0, n => [n]
  | fuel + 1, n => if n < 10 then [n] else decDigitsAux fuel (n / 10) ++ [n % 10]

/-- Decimal digits of `n`, most significant first. -/
def decDigits (n : Nat) : List Nat := decDigitsAux n n

/-- The character of a decimal digit. -/
def digitChar (d : Nat) : Char := (str "0123456789").getD d '?'

/-- A natural number rendered in decimal (how `JSON.stringify` prints a
non-negative integral JS number). -/
def natDec (n : Nat) : Str := (decDigits n).map digitChar

/-- The fuel argument is irrelevant once it is at least `n`. -/
theorem decDigitsAux_fuel (n : Nat) :
    ∀ fuel1 fuel2, n ≤ fuel1 → n ≤ fuel2 →
      decDigitsAux fuel1 n = decDigitsAux fuel2 n := by
  induction n using Nat.strong_induction_on with
  | _ n ih =>
    intro fuel1 fuel2 h1 h2
    by_cases h : n < 10
    · match fuel1, fuel2 with
      | 0, 0 => rfl
      | 0, f2 + 1 => simp [decDigitsAux, h]
      | f1 + 1, 0 => simp [decDigitsAux, h]
      | f1 + 1, f2 + 1 => simp [decDigitsAux, h]
    · match fuel1, fuel2 with
      | 0, _ => omega
      | _, 0 => omega
      | f1 + 1, f2 + 1 =>
        simp only [decDigitsAux, h, if_false]
        rw [ih (n / 10) (Nat.div_lt_self (by omega) (by omega)) f1 f2 (by omega) (by omega)]

/-- The defining recursion of `decDigits`. -/
theorem decDigits_eq (n : Nat) :
    decDigits n = if n < 10 then [n] else decDigits (n / 10) ++ [n % 10] := by
  by_cases h : n < 10
  · match hm : n, h with
    | 0, _ => rfl
    | m + 1, h => simp [decDigits, decDigitsAux, h]
  · have hn : n = (n - 1) + 1 := by omega
    simp only [h, if_false, decDigits]
    rw [hn]
    simp only [decDigitsAux, show ¬((n - 1) + 1 < 10) by omega, if_false]
    rw [← hn]
    congr 1
    exact decDigitsAux_fuel (n / 10) (n - 1) (n / 10) (by omega) (le_refl _)

/-- The `decDigits` produces digits. -/
theorem decDigits_lt (n : Nat) : ∀ d ∈ decDigits n, d < 10 := by
  induction n using Nat.strong_induction_on with
  | _ n ih =>
    intro d hd
    rw [decDigits_eq] at hd
    by_cases h : n < 10
    · simp [h] at hd; omega
    · simp only [h, if_false, List.mem_append, List.mem_singleton] at hd
      rcases hd with hd | hd
      · exact ih (n / 10) (Nat.div_lt_self (by omega) (by omega)) d hd
      · omega

/-- The `decDigits` is never empty. -/
theorem decDigits_ne_nil (n : Nat) : decDigits n ≠ [] := by
  rw [decDigits_eq]
  by_cases h : n < 10 <;> simp [h]

/-- Folding the digits of `n` back up recovers `n` (over any accumulator). -/
theorem foldl_decDigits (n : Nat) :
    ∀ a : Nat, (decDigits n).foldl (fun x d => 10 * x + d) a =
      a * 10 ^ (decDigits n).length + n := by
  induction n using Nat.strong_induction_on with
  | _ n ih =>
    intro a
    rw [decDigits_eq]
    by_cases h : n < 10
    · simp [h]; ring
    · have hlt : n / 10 < n := Nat.div_lt_self (by omega) (by omega)
      simp only [h, if_false, List.foldl_append, List.length_append,
        List.foldl_cons, List.foldl_nil, List.length_cons, List.length_nil]
      rw [ih (n / 10) hlt a]
      have := Nat.div_add_mod n 10
      ring_nf
      omega

/-! ## Base64 (`Buffer.toString('base64')` / `Buffer.from(s, 'base64')`) -/

/-- The standard (non-URL-safe) base64 alphabet. -/
def b64Table : Str :=
  str "ABCDEFGHIJKLMNOPQRSTUVWXYZabcdefghijklmnopqrstuvwxyz0123456789+/"

/-- The alphabet character of a 6-bit value. -/
def sixChar (n : Nat) : Char := b64Table.getD n '?'

/-- Index of a character in the alphabet. -/
def sixValAux : Str → Nat → Char → Option Nat
  | [], _, _ => none
  | t :: rest, i, c => if t = c then some i else sixValAux rest (i + 1) c

/-- The 6-bit value of an alphabet character. -/
def sixVal (c : Char) : Option Nat := sixValAux b64Table 0 c

/-- The `Buffer.toString('base64')`: 3-byte groups become 4 characters; a final
group of 1 or 2 bytes is padded with `=`. -/
def b64encode : List Nat → Str
  | [] => []
  | [a] => [sixChar (a / 4), sixChar (a % 4 * 16), '=', '=']
  | [a, b] => [sixChar (a / 4), sixChar (a % 4 * 16 + b / 16), sixChar (b % 16 * 4), '=']
  | a :: b :: c :: rest =>
    sixChar (a / 4) :: sixChar (a % 4 * 16 + b / 16) :: sixChar (b % 16 * 4 + c / 64) ::
      sixChar (c % 64) :: b64encode rest

/-- The `Buffer.from(s, 'base64')` on well-formed input (Node is lenient on
malformed input; the model only accepts canonical encodings). -/
def b64decode : Str → Option (List Nat)
  | [] => some []
  | c1 :: c2 :: c3 :: c4 :: rest =>
    match sixVal c1, sixVal c2 with
    | some v1, some v2 =>
      if c3 = '=' then
        if c4 = '=' ∧ rest = [] then some [v1 * 4 + v2 / 16] else none
      else
        match sixVal c3 with
        | some v3 =>
          if c4 = '=' then
            if rest = [] then some [v1 * 4 + v2 / 16, v2 % 16 * 16 + v3 / 4] else none
          else
            match sixVal c4, b64decode rest with
            | some v4, some tail =>
              some ((v1 * 4 + v2 / 16) :: (v2 % 16 * 16 + v3 / 4) :: (v3 % 4 * 64 + v4) :: tail)
            | _, _ => none
        | none => none
    | _, _ => none
  | _ => none

/-- Decoding the alphabet character of a 6-bit value recovers the value. -/
theorem sixVal_sixChar : ∀ k < 64, sixVal (sixChar k) = some k := by decide

/-- Alphabet characters are never the padding character. -/
theorem sixChar_ne_pad : ∀ k < 64, sixChar k ≠ '=' := by decide

/-- Base64 round-trip: decoding an encoded byte list recovers it. -/
theorem b64decode_encode :
    ∀ bs : List Nat, (∀ b ∈ bs, b < 256) → b64decode (b64encode bs) = some bs
  | [], _ => by simp [b64encode, b64decode]
  | [a], h => by
    have ha : a < 256 := h a (by simp)
    have h1 : a / 4 < 64 := by omega
    have h2 : a % 4 * 16 < 64 := by omega
    have e1 : a / 4 * 4 + a % 4 * 16 / 16 = a := by omega
    simp only [b64encode, b64decode, sixVal_sixChar _ h1, sixVal_sixChar _ h2, if_pos rfl,
      and_self, if_pos, e1]
  | [a, b], h => by
    have ha : a < 256 := h a (by simp)
    have hb : b < 256 := h b (by simp)
    have h1 : a / 4 < 64 := by omega
    have h2 : a % 4 * 16 + b / 16 < 64 := by omega
    have h3 : b % 16 * 4 < 64 := by omega
    have e1 : a / 4 * 4 + (a % 4 * 16 + b / 16) / 16 = a := by omega
    have e2 : (a % 4 * 16 + b / 16) % 16 * 16 + b % 16 * 4 / 4 = b := by omega
    simp only [b64encode, b64decode, sixVal_sixChar _ h1, sixVal_sixChar _ h2,
      sixVal_sixChar _ h3, if_neg (sixChar_ne_pad _ h3), if_pos rfl, if_pos rfl, e1, e2]
    simp
  | a :: b :: c :: rest, h => by
    have ha : a < 256 := h a (by simp)
    have hb : b < 256 := h b (by simp)
    have hc : c < 256 := h c (by simp)
    have h1 : a / 4 < 64 := by omega
    have h2 : a % 4 * 16 + b / 16 < 64 := by omega
    have h3 : b % 16 * 4 + c / 64 < 64 := by omega
    have h4 : c % 64 < 64 := by omega
    have e1 : a / 4 * 4 + (a % 4 * 16 + b / 16) / 16 = a := by omega
    have e2 : (a % 4 * 16 + b / 16) % 16 * 16 + (b % 16 * 4 + c / 64) / 4 = b := by omega
    have e3 : (b % 16 * 4 + c / 64) % 4 * 64 + c % 64 = c := by omega
    have ih := b64decode_encode rest (fun x hx => h x (by simp [hx]))
    match rest with
    | [] =>
      simp only [b64encode, b64decode, sixVal_sixChar _ h1, sixVal_sixChar _ h2,
        sixVal_sixChar _ h3, sixVal_sixChar _ h4, if_neg (sixChar_ne_pad _ h3),
        if_neg (sixChar_ne_pad _ h4), e1, e2, e3]
    | r1 :: rtail =>
      simp only [b64encode, b64decode, sixVal_sixChar _ h1, sixVal_sixChar _ h2,
        sixVal_sixChar _ h3, sixVal_sixChar _ h4, if_neg (sixChar_ne_pad _ h3),
        if_neg (sixChar_ne_pad _ h4), e1, e2, e3] at ih ⊢
      rw [ih]
      show some (a :: b :: ((b % 16 * 4 + c / 64) % 4 * 64 + c % 64) :: r1 :: rtail) =
        some (a :: b :: c :: r1 :: rtail)
      rw [e3]

/-! ## A JSON fragment: what `JSON.stringify`/`JSON.parse` do on note objects

The note codec serializes a flat object of string- and number-valued fields
with no whitespace and (for the strings the adapter produces) no escape
sequences.  The printer below is `JSON.stringify` on exactly such objects;
the parser is `JSON.parse` restricted to the same fragment (strings without
escapes, non-negative integer numerals, no whitespace). -/

/-- The `"` character. -/
def quoteC : Char := Char.ofNat 34

/-- The `\` character (excluded from modelled strings: it would start an
escape sequence in real JSON). -/
def bslashC : Char := Char.ofNat 92

/-- The opening brace. -/
def obC : Char := Char.ofNat 123

/-- The closing brace. -/
def cbC : Char := Char.ofNat 125

/-- A JSON value of the fragment. -/
inductive JVal where
  | jstr (s : Str)
  | jnum (n : Nat)
deriving DecidableEq, Repr

/-- A JSON string literal (no escaping: the adapter only serializes hex
strings, token symbols and integers). -/
def jStr (s : Str) : Str := quoteC :: s ++ [quoteC]

/-- Body of a string literal: everything up to the closing quote. -/
def pStrBody : Str → Option (Str × Str)
  | [] => none
  | c :: rest =>
    if c = quoteC then some ([], rest)
    else (pStrBody rest).map (fun p => (c :: p.1, p.2))

/-- ASCII digit test. -/
def isDigitB (c : Char) : Bool := 48 ≤ c.toNat && c.toNat ≤ 57

/-- Accumulate a decimal numeral. -/
def pNumAux : Nat → Str → Nat × Str
  | acc, [] => (acc, [])
  | acc, c :: rest =>
    if isDigitB c then pNumAux (10 * acc + (c.toNat - 48)) rest else (acc, c :: rest)

/-- Parse a non-negative integer numeral. -/
def pNum : Str → Option (Nat × Str)
  | [] => none
  | c :: rest => if isDigitB c then some (pNumAux (c.toNat - 48) rest) else none

/-- Parse one value: a string literal or a numeral. -/
def pVal (l : Str) : Option (JVal × Str) :=
  match l with
  | [] => none
  | c :: rest =>
    if c = quoteC then (pStrBody rest).map (fun p => (JVal.jstr p.1, p.2))
    else (pNum l).map (fun p => (JVal.jnum p.1, p.2))

/-- Parse a non-empty comma-separated field list up to the closing brace.
The fuel argument only forces termination; any value at least the number of
fields behaves like the unbounded original. -/
def pFields : Nat → Str → Option (List (Str × JVal) × Str)
  | 0, _ => none
  | fuel + 1, l =>
    match l with
    | [] => none
    | c :: rest =>
      if c = quoteC then
        match pStrBody rest with
        | none => none
        | some (key, r1) =>
          match r1 with
          | [] => none
          | c2 :: r2 =>
            if c2 = ':' then
              match pVal r2 with
              | none => none
              | some (v, r3) =>
                match r3 with
                | [] => none
                | c3 :: r4 =>
                  if c3 = ',' then (pFields fuel r4).map (fun p => ((key, v) :: p.1, p.2))
                  else if c3 = cbC then some ([(key, v)], r4)
                  else none
            else none
      else none

/-- Parse a whole (non-empty, flat) object; the entire input must be
consumed, as in `JSON.parse`. -/
def pObj (l : Str) : Option (List (Str × JVal)) :=
  match l with
  | [] => none
  | c :: rest =>
    if c = obC then
      match pFields (l.length + 6) rest with
      | some (flds, []) => some flds
      | _ => none
    else none

/-- First value bound to a key (the printer never emits duplicate keys). -/
def fieldVal (flds : List (Str × JVal)) (k : Str) : Option JVal :=
  match flds with
  | [] => none
  | (k1, v) :: rest => if k1 = k then some v else fieldVal rest k

/-- Property access expecting a string, as the adapter stores `data.c` etc. -/
def getStr (flds : List (Str × JVal)) (k : Str) : Option Str :=
  match fieldVal flds k with
  | some (JVal.jstr s) => some s
  | _ => none

/-- Property access expecting a number. -/
def getNum (flds : List (Str × JVal)) (k : Str) : Option Nat :=
  match fieldVal flds k with
  | some (JVal.jnum n) => some n
  | _ => none

/-- A string the printer can emit verbatim: ASCII (one UTF-8 byte per
character) and free of the quote and escape characters. -/
def safeStr (s : Str) : Prop := ∀ c ∈ s, c.toNat < 128 ∧ c ≠ quoteC ∧ c ≠ bslashC

/-- The input does not begin with a digit (so a numeral before it ends). -/
def noDigitHead : Str → Prop
  | [] => True
  | c :: _ => isDigitB c = false

instance (s : Str) : Decidable (safeStr s) :=
  inferInstanceAs (Decidable (∀ c ∈ s, c.toNat < 128 ∧ c ≠ quoteC ∧ c ≠ bslashC))

instance : (l : Str) → Decidable (noDigitHead l)
  | [] => isTrue trivial
  | _ :: _ => inferInstanceAs (Decidable (_ = false))

/-- Parsing a printed string body stops exactly at the closing quote. -/
theorem pStrBody_print (s : Str) (rest : Str) (hs : quoteC ∉ s) :
    pStrBody (s ++ quoteC :: rest) = some (s, rest) := by
  induction s with
  | nil => simp [pStrBody]
  | cons c cs ih =>
    have hc : c ≠ quoteC := fun h => hs (by simp [h])
    have ihh := ih (fun h => hs (by simp [h]))
    simp [pStrBody, hc, ihh]

/-- Digit characters print-and-reparse facts, checked by evaluation. -/
theorem digitChar_spec :
    ∀ d < 10, isDigitB (digitChar d) = true ∧ (digitChar d).toNat - 48 = d ∧
      digitChar d ≠ quoteC := by decide

/-- Consuming a printed digit run folds its digits onto the accumulator. -/
theorem pNumAux_digits (ds : List Nat) :
    ∀ (acc : Nat) (rest : Str), (∀ d ∈ ds, d < 10) → noDigitHead rest →
      pNumAux acc (ds.map digitChar ++ rest) =
        (ds.foldl (fun a d => 10 * a + d) acc, rest) := by
  induction ds with
  | nil =>
    intro acc rest _ hrest
    match rest with
    | [] => simp [pNumAux]
    | c :: r => simp only [noDigitHead] at hrest; simp [pNumAux, hrest]
  | cons d ds ih =>
    intro acc rest hds hrest
    have hd : d < 10 := hds d (by simp)
    obtain ⟨h1, h2, _⟩ := digitChar_spec d hd
    simp only [List.map_cons, List.cons_append, pNumAux, h1, if_pos, h2, List.foldl_cons]
    exact ih _ rest (fun x hx => hds x (by simp [hx])) hrest

/-- Parsing a printed numeral recovers the number and the tail. -/
theorem pNum_natDec (n : Nat) (rest : Str) (hrest : noDigitHead rest) :
    pNum (natDec n ++ rest) = some (n, rest) := by
  match hd : decDigits n with
  | [] => exact absurd hd (decDigits_ne_nil n)
  | d :: ds =>
    have hlt := decDigits_lt n
    rw [hd] at hlt
    have hd0 : d < 10 := hlt d (by simp)
    obtain ⟨h1, h2, _⟩ := digitChar_spec d hd0
    have hfold := foldl_decDigits n 0
    rw [hd] at hfold
    simp only [List.foldl_cons, Nat.mul_zero, Nat.zero_add, Nat.zero_mul, List.length_cons,
      Nat.zero_mul, Nat.zero_add] at hfold
    simp only [natDec, hd, List.map_cons, List.cons_append, pNum, h1, if_pos, h2]
    rw [pNumAux_digits ds d rest (fun x hx => hlt x (by simp [hx])) hrest]
    rw [hfold]

/-- Parsing a printed string value consumes it whatever follows. -/
theorem pVal_str (s : Str) (rest : Str) (hs : quoteC ∉ s) :
    pVal (jStr s ++ rest) = some (JVal.jstr s, rest) := by
  simp [jStr, pVal, pStrBody_print s rest hs]

/-- Parsing a printed numeral value consumes it when a non-digit follows. -/
theorem pVal_num (n : Nat) (rest : Str) (hrest : noDigitHead rest) :
    pVal (natDec n ++ rest) = some (JVal.jnum n, rest) := by
  match hd : decDigits n with
  | [] => exact absurd hd (decDigits_ne_nil n)
  | d :: ds =>
    have hlt := decDigits_lt n
    rw [hd] at hlt
    obtain ⟨h1, _, h3⟩ := digitChar_spec d (hlt d (by simp))
    have := pNum_natDec n rest hrest
    simp only [natDec, hd, List.map_cons, List.cons_append] at this ⊢
    simp [pVal, h3, this]

/-! ## Deposit notes (`PrivacyCashAdapter` interface `DepositNote`,
`encodeNote` / `decodeNote`) -/

/-- The adapter's `DepositNote`: hex strings for the cryptographic material,
a JS-number amount (modelled as `ℚ`), the uppercased token symbol and a
millisecond timestamp. -/
structure DepositNote where
  commitment : Str
  nullifier : Str
  secret : Str
  amount : ℚ
  token : Str
  timestamp : Nat
deriving DecidableEq, Repr

/-- The `JSON.stringify` of a JS number.  Only non-negative integral values are
modelled faithfully (the branch for other rationals is a placeholder never
reached by the theorems, which restrict to integral amounts). -/
def qDec (q : ℚ) : Str :=
  if 0 ≤ q.num ∧ q.den = 1 then natDec q.num.toNat
  else natDec q.num.natAbs ++ '/' :: natDec q.den

/-- One `"key":value` field followed by a comma and the rest of the object
body. -/
def fieldMore (k : Str) (pv : Str) (rest : Str) : Str :=
  jStr k ++ (':' :: (pv ++ (',' :: rest)))

/-- The final `"key":value` field followed by the closing brace. -/
def fieldLast (k : Str) (pv : Str) : Str :=
  jStr k ++ (':' :: (pv ++ [cbC]))

/-- The `JSON.stringify({c, n, s, a, t, ts})` with the adapter's insertion
order: the exact character sequence `encodeNote` base64-encodes. -/
def noteJson (nt : DepositNote) : Str :=
  obC :: fieldMore (str "c") (jStr nt.commitment)
    (fieldMore (str "n") (jStr nt.nullifier)
      (fieldMore (str "s") (jStr nt.secret)
        (fieldMore (str "a") (qDec nt.amount)
          (fieldMore (str "t") (jStr nt.token)
            (fieldLast (str "ts") (natDec nt.timestamp))))))

/-- The `encodeNote` from `PrivacyCashAdapter`:
`Buffer.from(JSON.stringify(data)).toString('base64')` — plain base64 of the
JSON, with no version tag in front. -/
def encodeNote (nt : DepositNote) : Str := b64encode ((noteJson nt).map Char.toNat)

/-- What `decodeNote` actually returns: each field is whatever property
access found, `none` standing for JS `undefined` or a type-mismatched
value. -/
structure RawNote where
  cF : Option Str
  nF : Option Str
  sF : Option Str
  aF : Option Nat
  tF : Option Str
  tsF : Option Nat
deriving DecidableEq, Repr

/-- The `decodeNote` from `PrivacyCashAdapter`:
`JSON.parse(Buffer.from(encoded, 'base64').toString())` followed by property
access on `c, n, s, a, t, ts`.  A parse failure is the thrown exception. -/
def decodeNote (encoded : Str) : Option RawNote :=
  match b64decode encoded with
  | none => none
  | some bytes =>
    match pObj (bytes.map Char.ofNat) with
    | none => none
    | some flds =>
      some ⟨getStr flds (str "c"), getStr flds (str "n"), getStr flds (str "s"),
        getNum flds (str "a"), getStr flds (str "t"), getNum flds (str "ts")⟩

/-- A fully populated decode result, as the rest of the adapter assumes. -/
def noteOfRaw (r : RawNote) : Option DepositNote :=
  match r.cF, r.nF, r.sF, r.aF, r.tF, r.tsF with
  | some c, some nn, some s, some a, some t, some ts => some ⟨c, nn, s, (a : ℚ), t, ts⟩
  | _, _, _, _, _, _ => none

/-- The raw decode of a well-formed note. -/
def rawOf (nt : DepositNote) : RawNote :=
  ⟨some nt.commitment, some nt.nullifier, some nt.secret, some nt.amount.num.toNat,
    some nt.token, some nt.timestamp⟩

/-- The expected parse of a note object body. -/
def noteFields (nt : DepositNote) : List (Str × JVal) :=
  [(str "c", JVal.jstr nt.commitment), (str "n", JVal.jstr nt.nullifier),
   (str "s", JVal.jstr nt.secret), (str "a", JVal.jnum nt.amount.num.toNat),
   (str "t", JVal.jstr nt.token), (str "ts", JVal.jnum nt.timestamp)]

/-- Parser step: one field followed by a comma and more fields. -/
theorem pFields_more (fuel : Nat) (k pv : Str) (v : JVal) (rest : Str)
    (hk : quoteC ∉ k)
    (hpv : ∀ r, noDigitHead r → pVal (pv ++ r) = some (v, r)) :
    pFields (fuel + 1) (fieldMore k pv rest) =
      (pFields fuel rest).map (fun p => ((k, v) :: p.1, p.2)) := by
  have hshape : fieldMore k pv rest = quoteC :: (k ++ (quoteC :: (':' :: (pv ++ (',' :: rest))))) := by
    simp [fieldMore, jStr]
  have hpv' := hpv (',' :: rest) (by simp only [noDigitHead]; decide)
  rw [hshape]
  simp only [pFields, if_pos rfl, pStrBody_print k _ hk, hpv', if_pos rfl]
  simp

/-- Parser step: the final field followed by the closing brace. -/
theorem pFields_last (fuel : Nat) (k pv : Str) (v : JVal)
    (hk : quoteC ∉ k)
    (hpv : ∀ r, noDigitHead r → pVal (pv ++ r) = some (v, r)) :
    pFields (fuel + 1) (fieldLast k pv) = some ([(k, v)], []) := by
  have hshape : fieldLast k pv = quoteC :: (k ++ (quoteC :: (':' :: (pv ++ ([cbC] : Str))))) := by
    simp [fieldLast, jStr]
  have hpv' := hpv [cbC] (by simp only [noDigitHead]; decide)
  rw [hshape]
  simp only [pFields, if_pos rfl, pStrBody_print k _ hk, hpv']
  have h1 : ¬(cbC = ',') := by decide
  simp [h1]

/-- A safe string contains no quote character. -/
theorem safeStr_no_quote {s : Str} (hs : safeStr s) : quoteC ∉ s :=
  fun h => ((hs _ h).2.1) rfl

/-- The whole object body of a note parses to its six fields. -/
theorem pFields_noteJson (nt : DepositNote) (fuel : Nat)
    (hc : safeStr nt.commitment) (hn : safeStr nt.nullifier) (hs : safeStr nt.secret)
    (ht : safeStr nt.token) (ha : 0 ≤ nt.amount.num ∧ nt.amount.den = 1) :
    pFields (fuel + 6)
      (fieldMore (str "c") (jStr nt.commitment)
        (fieldMore (str "n") (jStr nt.nullifier)
          (fieldMore (str "s") (jStr nt.secret)
            (fieldMore (str "a") (qDec nt.amount)
              (fieldMore (str "t") (jStr nt.token)
                (fieldLast (str "ts") (natDec nt.timestamp))))))) =
      some (noteFields nt, []) := by
  have hkc : quoteC ∉ str "c" := by decide
  have hkn : quoteC ∉ str "n" := by decide
  have hks : quoteC ∉ str "s" := by decide
  have hka : quoteC ∉ str "a" := by decide
  have hkt : quoteC ∉ str "t" := by decide
  have hkts : quoteC ∉ str "ts" := by decide
  have hqa : qDec nt.amount = natDec nt.amount.num.toNat := by simp [qDec, ha.1, ha.2]
  rw [show fuel + 6 = (fuel + 5) + 1 from rfl,
    pFields_more _ _ _ (JVal.jstr nt.commitment) _ hkc
      (fun r _ => pVal_str nt.commitment r (safeStr_no_quote hc)),
    show fuel + 5 = (fuel + 4) + 1 from rfl,
    pFields_more _ _ _ (JVal.jstr nt.nullifier) _ hkn
      (fun r _ => pVal_str nt.nullifier r (safeStr_no_quote hn)),
    show fuel + 4 = (fuel + 3) + 1 from rfl,
    pFields_more _ _ _ (JVal.jstr nt.secret) _ hks
      (fun r _ => pVal_str nt.secret r (safeStr_no_quote hs)),
    show fuel + 3 = (fuel + 2) + 1 from rfl,
    hqa,
    pFields_more _ _ _ (JVal.jnum nt.amount.num.toNat) _ hka
      (fun r hr => pVal_num nt.amount.num.toNat r hr),
    show fuel + 2 = (fuel + 1) + 1 from rfl,
    pFields_more _ _ _ (JVal.jstr nt.token) _ hkt
      (fun r _ => pVal_str nt.token r (safeStr_no_quote ht)),
    pFields_last _ _ _ (JVal.jnum nt.timestamp) hkts
      (fun r hr => pVal_num nt.timestamp r hr)]
  simp [noteFields]

/-- Decimal numerals are ASCII. -/
theorem natDec_ascii (m : Nat) : ∀ c ∈ natDec m, c.toNat < 128 := by
  intro c hc
  simp only [natDec, List.mem_map] at hc
  obtain ⟨d, hd, rfl⟩ := hc
  have := decDigits_lt m d hd
  have : ∀ d < 10, (digitChar d).toNat < 128 := by decide
  exact this _ (decDigits_lt m d hd)

/-- A printed string literal is ASCII when its body is safe. -/
theorem jStr_ascii {s : Str} (hs : safeStr s) : ∀ c ∈ jStr s, c.toNat < 128 := by
  intro c hcm
  by_cases h : c ∈ s
  · exact (hs c h).1
  · have hq : c = quoteC := by
      simp only [jStr, List.mem_cons, List.mem_append, List.mem_singleton] at hcm
      tauto
    rw [hq]; decide

/-- The `JSON.stringify` of any JS number in the model is ASCII. -/
theorem qDec_ascii (q : ℚ) : ∀ c ∈ qDec q, c.toNat < 128 := by
  intro c hcm
  simp only [qDec] at hcm
  split at hcm
  · exact natDec_ascii _ _ hcm
  · simp only [List.mem_append, List.mem_cons] at hcm
    rcases hcm with hcm | rfl | hcm
    · exact natDec_ascii _ _ hcm
    · decide
    · exact natDec_ascii _ _ hcm

/-- A non-final field is ASCII when its pieces are. -/
theorem fieldMore_ascii {k pv rest : Str}
    (hk : ∀ c ∈ jStr k, c.toNat < 128) (hpv : ∀ c ∈ pv, c.toNat < 128)
    (hrest : ∀ c ∈ rest, c.toNat < 128) :
    ∀ c ∈ fieldMore k pv rest, c.toNat < 128 := by
  intro c hcm
  simp only [fieldMore, List.mem_append, List.mem_cons] at hcm
  rcases hcm with hcm | rfl | hcm | rfl | hcm
  · exact hk _ hcm
  · decide
  · exact hpv _ hcm
  · decide
  · exact hrest _ hcm

/-- The final field is ASCII when its pieces are. -/
theorem fieldLast_ascii {k pv : Str}
    (hk : ∀ c ∈ jStr k, c.toNat < 128) (hpv : ∀ c ∈ pv, c.toNat < 128) :
    ∀ c ∈ fieldLast k pv, c.toNat < 128 := by
  intro c hcm
  simp only [fieldLast, List.mem_append, List.mem_cons, List.mem_singleton,
    List.not_mem_nil, or_false] at hcm
  rcases hcm with hcm | rfl | hcm | rfl
  · exact hk _ hcm
  · decide
  · exact hpv _ hcm
  · decide

/-- Every character of the printed note JSON is ASCII, hence one byte. -/
theorem noteJson_ascii (nt : DepositNote)
    (hc : safeStr nt.commitment) (hn : safeStr nt.nullifier) (hs : safeStr nt.secret)
    (ht : safeStr nt.token) :
    ∀ c ∈ noteJson nt, c.toNat < 128 := by
  have h6 := fieldLast_ascii (k := str "ts") (by decide) (natDec_ascii nt.timestamp)
  have h5 := fieldMore_ascii (k := str "t") (by decide) (jStr_ascii ht) h6
  have h4 := fieldMore_ascii (k := str "a") (by decide) (qDec_ascii nt.amount) h5
  have h3 := fieldMore_ascii (k := str "s") (by decide) (jStr_ascii hs) h4
  have h2 := fieldMore_ascii (k := str "n") (by decide) (jStr_ascii hn) h3
  have h1 := fieldMore_ascii (k := str "c") (by decide) (jStr_ascii hc) h2
  intro c hcm
  simp only [noteJson, List.mem_cons] at hcm
  rcases hcm with rfl | hcm
  · decide
  · exact h1 _ hcm

/-- Decode/encode round-trip: `decodeNote` recovers exactly the fields
`encodeNote` serialized (for notes made of safe ASCII strings and a
non-negative integral amount — the only notes the adapter produces). -/
theorem decodeNote_encodeNote (nt : DepositNote)
    (hc : safeStr nt.commitment) (hn : safeStr nt.nullifier) (hs : safeStr nt.secret)
    (ht : safeStr nt.token) (ha : 0 ≤ nt.amount.num ∧ nt.amount.den = 1) :
    decodeNote (encodeNote nt) = some (rawOf nt) := by
  have hascii := noteJson_ascii nt hc hn hs ht
  have hbytes : ∀ b ∈ (noteJson nt).map Char.toNat, b < 256 := by
    intro b hb
    simp only [List.mem_map] at hb
    obtain ⟨c, hcm, rfl⟩ := hb
    exact lt_trans (hascii c hcm) (by norm_num)
  have hb64 := b64decode_encode _ hbytes
  have hchars : ((noteJson nt).map Char.toNat).map Char.ofNat = noteJson nt := by
    rw [List.map_map]
    have : (Char.ofNat ∘ Char.toNat) = id := funext fun c => Char.ofNat_toNat c
    rw [this, List.map_id]
  simp only [decodeNote, encodeNote, hb64, hchars]
  have hobj : pObj (noteJson nt) = some (noteFields nt) := by
    have hlen : (noteJson nt).length =
      (fieldMore (str "c") (jStr nt.commitment)
        (fieldMore (str "n") (jStr nt.nullifier)
          (fieldMore (str "s") (jStr nt.secret)
            (fieldMore (str "a") (qDec nt.amount)
              (fieldMore (str "t") (jStr nt.token)
                (fieldLast (str "ts") (natDec nt.timestamp))))))).length + 1 := by
      simp [noteJson]
    simp only [pObj, noteJson, if_pos rfl]
    rw [← noteJson, hlen, Nat.add_right_comm _ 1 6]
    rw [pFields_noteJson nt _ hc hn hs ht ha]
    simp
  rw [hobj]
  have hget : getStr (noteFields nt) (str "c") = some nt.commitment ∧
      getStr (noteFields nt) (str "n") = some nt.nullifier ∧
      getStr (noteFields nt) (str "s") = some nt.secret ∧
      getNum (noteFields nt) (str "a") = some nt.amount.num.toNat ∧
      getStr (noteFields nt) (str "t") = some nt.token ∧
      getNum (noteFields nt) (str "ts") = some nt.timestamp := by
    refine ⟨?_, ?_, ?_, ?_, ?_, ?_⟩ <;>
      simp [getStr, getNum, fieldVal, noteFields, str]
  simp only [rawOf, hget.1, hget.2.1, hget.2.2.1, hget.2.2.2.1, hget.2.2.2.2.1,
    hget.2.2.2.2.2]

/-- Full round-trip through the adapter's follow-up extraction: decoding an
encoded note and reading all fields yields the original note. -/
theorem noteOfRaw_decode (nt : DepositNote)
    (hc : safeStr nt.commitment) (hn : safeStr nt.nullifier) (hs : safeStr nt.secret)
    (ht : safeStr nt.token) (ha : 0 ≤ nt.amount.num ∧ nt.amount.den = 1) :
    (decodeNote (encodeNote nt)).bind noteOfRaw = some nt := by
  rw [decodeNote_encodeNote nt hc hn hs ht ha]
  have hcast : ((nt.amount.num.toNat : ℕ) : ℚ) = nt.amount := by
    have h1 : ((nt.amount.num.toNat : ℤ) : ℚ) = (nt.amount.num : ℚ) := by
      rw [Int.toNat_of_nonneg ha.1]
    have h2 : (nt.amount.num : ℚ) = nt.amount := by
      rw [← Rat.num_div_den nt.amount, ha.2]; simp
    rw [← h2, ← h1]
    push_cast
    rfl
  show some (⟨nt.commitment, nt.nullifier, nt.secret, ((nt.amount.num.toNat : ℕ) : ℚ),
    nt.token, nt.timestamp⟩ : DepositNote) = some nt
  rw [hcast]

/-! ## `PrivacyCashAdapter` cryptographic helpers and instruction layout -/

/-- The `computeCommitment` from `PrivacyCashAdapter`:
`bytesToHex(hexToBytes((secret + nullifier).slice(0, 64)))` — the first 32
bytes of the concatenated hex material, not a hash. -/
def computeCommitment (secret nullifier : Str) : Str :=
  bytesToHex (hexToBytes ((secret ++ nullifier).take 64))

/-- The `hashNullifier` from `PrivacyCashAdapter`:
`bytesToHex(hexToBytes(nullifier))` — the identity on well-formed lowercase
hex, not a hash. -/
def hashNullifier (nullifier : Str) : Str :=
  bytesToHex (hexToBytes nullifier)

/-- The BN254 scalar-field modulus (`SNARK_FIELD_SIZE`): every Poseidon
output is a field element strictly below it. -/
def snarkFieldSize : Nat :=
  21888242871839275222246405745257275088548364400416034343698204186575808495617

/-- Modelled from the spec: the repository's Poseidon module
(`packages/sdk/src/poseidon.ts`, not present under `src/`) hashes into the
BN254 scalar field, so a 32-byte buffer can be a Poseidon image only if the
big-endian integer it denotes is a canonical field element, i.e. is
`< snarkFieldSize`. -/
def isPoseidonImage (bytes : List Nat) : Prop :=
  ∃ h : Nat, h < snarkFieldSize ∧ beValue bytes = h

/-- The `Buffer.copy`-style overwrite at the front: source bytes replace the
destination prefix, without growing the destination. -/
def writeFront : List Nat → List Nat → List Nat
  | dst, [] => dst
  | [], _ => []
  | _ :: dst, s :: src => s :: writeFront dst src

/-- The `src.copy(dst, off)`: overwrite `dst` starting at `off`; the
destination length never changes. -/
def bufCopy : List Nat → Nat → List Nat → List Nat
  | dst, 0, src => writeFront dst src
  | [], _ + 1, _ => []
  | d :: dst, off + 1, src => d :: bufCopy dst off src

/-- The `Buffer.writeUInt32LE`: the four little-endian bytes of a `u32`. -/
def u32le (v : Nat) : List Nat :=
  [v % 256, v / 256 % 256, v / 65536 % 256, v / 16777216 % 256]

/-- One seed component of a program-derived address. -/
inductive Seed where
  | lit (s : Str)
  | key (base58 : Str)
  | bytes (bs : List Nat)
deriving DecidableEq, Repr

/-- The data and PDA seeds of the pool-withdraw `TransactionInstruction`
(account metas other than the two PDAs are not modelled). -/
structure WithdrawInstr where
  data : List Nat
  poolSeeds : List Seed
  nullifierSeeds : List Seed
deriving DecidableEq, Repr

/-- Pool configuration entry (`POOL_CONFIGS`). -/
structure PoolConfig where
  mint : Str
  decimals : Nat
  minDeposit : ℚ
  maxDeposit : ℚ
  anonymitySet : Nat
deriving DecidableEq, Repr

/-- The `POOL_CONFIGS`: the two Privacy Cash pools. -/
def POOL_CONFIGS (token : Str) : Option PoolConfig :=
  if token = str "SOL" then
    some ⟨str "So11111111111111111111111111111111111111112", 9, 1 / 10, 100, 500⟩
  else if token = str "USDC" then
    some ⟨str "EPjFWdd5AufqSSqeM2qN1xzybapC8G4wEGGkZwyTDt1v", 6, 10, 10000, 300⟩
  else none

/-- The `createWithdrawInstruction` from `PrivacyCashAdapter`: allocate a
zeroed buffer of `1 + 32 + 32 + 4 + proof.length` bytes, then sequentially
write the opcode `0x02`, the nullifier-hash bytes at offset 1, the root
bytes at offset 33, the proof length as `u32` little-endian at offset 65 and
the proof bytes at offset 69; the PDAs are derived from
`["pool", mint]` and `["nullifier", nullifierHash]`. -/
def createWithdrawInstruction (nullifier root : Str) (proof : List Nat)
    (cfg : PoolConfig) : WithdrawInstr :=
  let nullifierHash := hashNullifier nullifier
  let b0 := List.replicate (1 + 32 + 32 + 4 + proof.length) 0
  let b1 := bufCopy b0 0 [2]
  let b2 := bufCopy b1 1 (hexToBytes nullifierHash)
  let b3 := bufCopy b2 33 (hexToBytes root)
  let b4 := bufCopy b3 65 (u32le proof.length)
  let b5 := bufCopy b4 69 proof
  { data := b5
    poolSeeds := [Seed.lit (str "pool"), Seed.key cfg.mint]
    nullifierSeeds := [Seed.lit (str "nullifier"), Seed.bytes (hexToBytes nullifierHash)] }

/-- The `createDepositInstruction` data:
`u8 0x01 | 32 bytes commitment | u64le amount in base units`; the modelled
part is the byte layout (the `u64` write is `amountUnits`'s 8 little-endian
bytes). -/
def u64le (v : Nat) : List Nat :=
  [v % 256, v / 256 % 256, v / 65536 % 256, v / 16777216 % 256,
   v / 4294967296 % 256, v / 1099511627776 % 256,
   v / 281474976710656 % 256, v / 72057594037927936 % 256]

/-- The deposit-instruction data buffer (opcode, commitment, amount). -/
def createDepositInstructionData (commitment : Str) (amountUnits : Nat) : List Nat :=
  let b0 := List.replicate (1 + 32 + 8) 0
  let b1 := bufCopy b0 0 [1]
  let b2 := bufCopy b1 1 (hexToBytes commitment)
  bufCopy b2 33 (u64le amountUnits)

/-- Overwriting at the front with a short enough source splits the list. -/
theorem writeFront_split (src tail : List Nat) :
    ∀ dst : List Nat, src.length ≤ dst.length →
      writeFront (dst ++ tail) src = src ++ (dst.drop src.length ++ tail) := by
  induction src with
  | nil => intro dst _; simp [writeFront]
  | cons s src ih =>
    intro dst hlen
    match dst with
    | [] => simp at hlen
    | d :: dst =>
      simp only [List.cons_append, writeFront, List.length_cons, List.drop_succ_cons]
      rw [List.append_eq, ih dst (by simpa using hlen)]

/-- Copying at the offset equal to a prefix length leaves the prefix and
overwrites past it. -/
theorem bufCopy_at (src : List Nat) :
    ∀ (pre dst tail : List Nat), src.length ≤ dst.length →
      bufCopy (pre ++ (dst ++ tail)) pre.length src =
        pre ++ (src ++ (dst.drop src.length ++ tail)) := by
  intro pre
  induction pre with
  | nil => intro dst tail hlen; simpa [bufCopy] using writeFront_split src tail dst hlen
  | cons p pre ih =>
    intro dst tail hlen
    simp only [List.cons_append, List.length_cons, bufCopy]
    rw [List.append_eq, ih dst tail hlen]

/-- The `bufCopy` at an offset given as a number equal to the prefix length. -/
theorem bufCopy_at_off (src pre dst tail : List Nat) (off : Nat)
    (hoff : off = pre.length) (hlen : src.length ≤ dst.length) :
    bufCopy (pre ++ (dst ++ tail)) off src =
      pre ++ (src ++ (dst.drop src.length ++ tail)) := by
  rw [hoff]; exact bufCopy_at src pre dst tail hlen

/-- The five sequential buffer writes on a zeroed buffer produce the
concatenated layout, with the 32-byte regions zero-padded past their
sources. -/
theorem withdrawWrites (nh rt proof : List Nat)
    (hnh : nh.length ≤ 32) (hroot : rt.length = 32) :
    bufCopy (bufCopy (bufCopy (bufCopy (bufCopy
        (List.replicate (1 + 32 + 32 + 4 + proof.length) 0) 0 [2]) 1 nh) 33 rt)
        65 (u32le proof.length)) 69 proof =
      2 :: (nh ++ (List.replicate (32 - nh.length) 0 ++
        (rt ++ (u32le proof.length ++ proof)))) := by
  have hsplit : List.replicate (1 + 32 + 32 + 4 + proof.length) 0 =
      List.replicate 1 0 ++ (List.replicate 32 0 ++ (List.replicate 32 0 ++
        (List.replicate 4 0 ++ List.replicate proof.length 0))) := by
    rw [show 1 + 32 + 32 + 4 + proof.length =
      1 + (32 + (32 + (4 + proof.length))) by omega]
    rw [List.replicate_add, List.replicate_add, List.replicate_add, List.replicate_add]
  have h1 : bufCopy (List.replicate (1 + 32 + 32 + 4 + proof.length) 0) 0 [2] =
      [2] ++ (List.replicate 32 0 ++ (List.replicate 32 0 ++
        (List.replicate 4 0 ++ List.replicate proof.length 0))) := by
    rw [hsplit]
    have := bufCopy_at_off [2] [] (List.replicate 1 0)
      (List.replicate 32 0 ++ (List.replicate 32 0 ++
        (List.replicate 4 0 ++ List.replicate proof.length 0))) 0 (by simp) (by simp)
    simpa using this
  have h2 : bufCopy ([2] ++ (List.replicate 32 0 ++ (List.replicate 32 0 ++
        (List.replicate 4 0 ++ List.replicate proof.length 0)))) 1 nh =
      ([2] ++ (nh ++ (List.replicate (32 - nh.length) 0 ++ (List.replicate 32 0 ++
        (List.replicate 4 0 ++ List.replicate proof.length 0))))) := by
    rw [bufCopy_at_off nh [2] (List.replicate 32 0)
      (List.replicate 32 0 ++ (List.replicate 4 0 ++ List.replicate proof.length 0)) 1
      (by simp) (by simpa using hnh)]
    rw [List.drop_replicate]
  have hpre2 : ([2] ++ (nh ++ (List.replicate (32 - nh.length) 0 : List Nat))).length = 33 := by
    simp only [List.length_append, List.length_cons, List.length_nil, List.length_replicate]
    omega
  have h3 : bufCopy ([2] ++ (nh ++ (List.replicate (32 - nh.length) 0 ++
        (List.replicate 32 0 ++ (List.replicate 4 0 ++ List.replicate proof.length 0)))))
        33 rt =
      [2] ++ (nh ++ (List.replicate (32 - nh.length) 0 ++ (rt ++
        (List.replicate 4 0 ++ List.replicate proof.length 0)))) := by
    have heq : [2] ++ (nh ++ (List.replicate (32 - nh.length) 0 ++
        (List.replicate 32 0 ++ (List.replicate 4 0 ++ List.replicate proof.length 0)))) =
        ([2] ++ (nh ++ List.replicate (32 - nh.length) 0)) ++
          (List.replicate 32 0 ++ (List.replicate 4 0 ++ List.replicate proof.length 0)) := by
      simp [List.append_assoc]
    rw [heq, bufCopy_at_off rt ([2] ++ (nh ++ List.replicate (32 - nh.length) 0))
      (List.replicate 32 0) (List.replicate 4 0 ++ List.replicate proof.length 0) 33
      (hpre2.symm) (by simp [hroot]), hroot]
    simp [List.append_assoc]
  have h4 : bufCopy ([2] ++ (nh ++ (List.replicate (32 - nh.length) 0 ++ (rt ++
        (List.replicate 4 0 ++ List.replicate proof.length 0))))) 65 (u32le proof.length) =
      [2] ++ (nh ++ (List.replicate (32 - nh.length) 0 ++ (rt ++
        (u32le proof.length ++ List.replicate proof.length 0)))) := by
    have heq : [2] ++ (nh ++ (List.replicate (32 - nh.length) 0 ++ (rt ++
        (List.replicate 4 0 ++ List.replicate proof.length 0)))) =
        (([2] ++ (nh ++ List.replicate (32 - nh.length) 0)) ++ rt) ++
          (List.replicate 4 0 ++ List.replicate proof.length 0) := by
      simp [List.append_assoc]
    have hpre3 : ((([2] ++ (nh ++ List.replicate (32 - nh.length) 0)) ++ rt) : List Nat).length = 65 := by
      simp only [List.length_append, List.length_cons, List.length_nil, List.length_replicate,
        hroot]
      omega
    rw [heq, bufCopy_at_off (u32le proof.length)
      (([2] ++ (nh ++ List.replicate (32 - nh.length) 0)) ++ rt)
      (List.replicate 4 0) (List.replicate proof.length 0) 65
      hpre3.symm (by simp [u32le])]
    simp [u32le, List.append_assoc]
  have h5 : bufCopy ([2] ++ (nh ++ (List.replicate (32 - nh.length) 0 ++ (rt ++
        (u32le proof.length ++ List.replicate proof.length 0))))) 69 proof =
      [2] ++ (nh ++ (List.replicate (32 - nh.length) 0 ++ (rt ++
        (u32le proof.length ++ proof)))) := by
    have heq : [2] ++ (nh ++ (List.replicate (32 - nh.length) 0 ++ (rt ++
        (u32le proof.length ++ List.replicate proof.length 0)))) =
        ((([2] ++ (nh ++ List.replicate (32 - nh.length) 0)) ++ rt) ++ u32le proof.length) ++
          (List.replicate proof.length 0 ++ []) := by
      simp [List.append_assoc]
    have hpre4 : (((([2] ++ (nh ++ List.replicate (32 - nh.length) 0)) ++ rt) ++
        u32le proof.length) : List Nat).length = 69 := by
      simp only [List.length_append, List.length_cons, List.length_nil, List.length_replicate,
        hroot, u32le]
      omega
    rw [heq, bufCopy_at_off proof
      ((([2] ++ (nh ++ List.replicate (32 - nh.length) 0)) ++ rt) ++ u32le proof.length)
      (List.replicate proof.length 0) [] 69 hpre4.symm (by simp)]
    simp [List.append_assoc]
  rw [h1, h2, h3, h4, h5]
  simp [List.append_assoc]

/-- C7: the data buffer of `createWithdrawInstruction` is exactly the
concatenated layout `0x02 | 32-byte nullifier-hash field | 32-byte root |
u32le proof length | proof bytes` (the nullifier-hash bytes zero-padded to
their 32-byte field), and its two PDAs are derived from the seeds
`["pool", mint]` and `["nullifier", nullifier_hash]`. -/
theorem claim_C7_withdraw_instruction (nullifier root : Str) (proof : List Nat)
    (cfg : PoolConfig)
    (hnh : (hexToBytes (hashNullifier nullifier)).length ≤ 32)
    (hroot : (hexToBytes root).length = 32) :
    (createWithdrawInstruction nullifier root proof cfg).data =
      2 :: (hexToBytes (hashNullifier nullifier) ++
        (List.replicate (32 - (hexToBytes (hashNullifier nullifier)).length) 0 ++
          (hexToBytes root ++ (u32le proof.length ++ proof)))) ∧
    (createWithdrawInstruction nullifier root proof cfg).poolSeeds =
      [Seed.lit (str "pool"), Seed.key cfg.mint] ∧
    (createWithdrawInstruction nullifier root proof cfg).nullifierSeeds =
      [Seed.lit (str "nullifier"), Seed.bytes (hexToBytes (hashNullifier nullifier))] := by
  refine ⟨?_, rfl, rfl⟩
  exact withdrawWrites (hexToBytes (hashNullifier nullifier)) (hexToBytes root) proof hnh hroot

/-! ## Shared adapter vocabulary: providers, errors, effects, requests -/

/-- Provider identifiers (`PrivacyProvider`). -/
inductive Provider where
  | shadowWire | arcium | noir | privacyCash
deriving DecidableEq, Repr

/-- Privacy levels (`PrivacyLevel`). -/
inductive PrivLevel where
  | fullEncrypted | amountHidden | senderHidden | compliantPool | zkProven
deriving DecidableEq, Repr

/-- The error taxonomy, restricted to the constructors the modelled code
paths throw.  `genericErr` is a plain `new Error(message)`. -/
inductive PKErr where
  | amountBelowMinimum (amount minimum : ℚ) (token : Str) (provider : Provider)
  | insufficientBalance (required available : ℚ) (token : Str)
  | recipientNotFound (address : Str)
  | transactionErr (msg : Str)
  | networkErr (msg : Str)
  | genericErr (msg : Str)
deriving DecidableEq, Repr

/-- Decidable equality for `Except` outcomes. -/
instance instDecEqExcept {ε α : Type} [DecidableEq ε] [DecidableEq α] :
    DecidableEq (Except ε α)
  | .error e1, .error e2 =>
    if h : e1 = e2 then isTrue (by rw [h]) else isFalse (fun hh => h (Except.error.inj hh))
  | .error _, .ok _ => isFalse Except.noConfusion
  | .ok _, .error _ => isFalse Except.noConfusion
  | .ok a1, .ok a2 =>
    if h : a1 = a2 then isTrue (by rw [h]) else isFalse (fun hh => h (Except.ok.inj hh))

/-- Externally visible effects of an operation, in program order. -/
inductive Eff where
  | signTx (label : Str)
  | signMsg (label : Str)
  | sendTx
  | confirmTx
  | httpPost (path : Str)
deriving DecidableEq, Repr

/-- Outcome of submitting and confirming a transaction on chain. -/
inductive ChainRes where
  | confirmed (signature : Str)
  | failed (msg : Str)
deriving DecidableEq, Repr

/-- The adapter's local unspent-note map (`Map<string, DepositNote>`,
insertion-ordered, keyed by commitment). -/
abbrev NoteMap := List (Str × DepositNote)

/-- The `Map.set`: replace in place if the key exists, else append. -/
def mapSet (m : NoteMap) (k : Str) (v : DepositNote) : NoteMap :=
  match m with
  | [] => [(k, v)]
  | (k1, v1) :: rest => if k1 = k then (k, v) :: rest else (k1, v1) :: mapSet rest k v

/-- The `Map.delete`. -/
def mapDel (m : NoteMap) (k : Str) : NoteMap :=
  m.filter (fun p => decide (p.1 ≠ k))

/-- The `Map.values()`, in insertion order. -/
def mapValues (m : NoteMap) : List DepositNote := m.map Prod.snd

/-! ## `PrivacyCashAdapter` operations -/

/-- A deposit request. -/
structure DepositReq where
  amount : ℚ
  token : Str
deriving DecidableEq, Repr

/-- A deposit result (`commitment` carries the encoded note string). -/
structure DepositRes where
  signature : Str
  commitment : Str
  fee : ℚ
deriving DecidableEq, Repr

/-- A withdraw request as the pool adapter reads it: the encoded note (the
request's `commitment` field, optional) and the recipient. -/
structure PcWithdrawReq where
  note : Option Str
  recipient : Str
deriving DecidableEq, Repr

/-- A withdraw result. -/
structure WithdrawRes where
  signature : Str
  fee : ℚ
deriving DecidableEq, Repr

/-- A transfer request. -/
structure TransferReq where
  amount : ℚ
  token : Str
  recipient : Str
deriving DecidableEq, Repr

/-- A pool transfer result. -/
structure PcTransferRes where
  signature : Str
  fee : ℚ
  anonymitySet : Option Nat
deriving DecidableEq, Repr

/-- Outcome, updated local note map and effect trace of a pool operation. -/
structure PcRun (α : Type) where
  outcome : Except PKErr α
  notes : NoteMap
  effs : List Eff
deriving Repr

/-- Oracle inputs of a deposit: the `randomBytes(31)` draws, `Date.now()`,
and the chain interaction. -/
structure PcDepositOracle where
  secretBytes : List Nat
  nullifierBytes : List Nat
  now : Nat
  chain : ChainRes
deriving Repr

/-- Oracle inputs of a withdraw: the Merkle root the proof service (or the
local placeholder) returned, the serialized proof bytes, and the chain
interaction.  `getMerkleProof` itself never fails: an unreachable API falls
back to a locally generated placeholder proof. -/
structure PcWithdrawOracle where
  merkleRoot : Str
  proofBytes : List Nat
  chain : ChainRes
deriving Repr

/-- The `PrivacyCashAdapter.getBalance`: uppercase the token, reject tokens
without a pool configuration, and sum the amounts of the locally stored
unspent notes for that token.  No chain or network access is involved. -/
def pcGetBalance (m : NoteMap) (token : Str) : Except PKErr ℚ :=
  let normalizedToken := upper token
  match POOL_CONFIGS normalizedToken with
  | none => .error (.genericErr (str "Token " ++ token ++ str " not supported by Privacy Cash"))
  | some _ =>
    .ok ((mapValues m).foldl
      (fun total note => if note.token = normalizedToken then total + note.amount else total) 0)

/-- The `PrivacyCashAdapter.deposit`: pool lookup, minimum and maximum checks
(before anything is signed), then note material from the randomness oracle,
commitment via `computeCommitment`, chain submission, and on confirmation
the note is stored and returned in encoded form with a 0.5 % fee. -/
def pcDeposit (m : NoteMap) (req : DepositReq) (o : PcDepositOracle) : PcRun DepositRes :=
  let token := upper req.token
  match POOL_CONFIGS token with
  | none =>
    ⟨.error (.genericErr (str "Token " ++ req.token ++ str " not supported by Privacy Cash")),
      m, []⟩
  | some cfg =>
    if req.amount < cfg.minDeposit then
      ⟨.error (.amountBelowMinimum req.amount cfg.minDeposit token Provider.privacyCash), m, []⟩
    else if cfg.maxDeposit < req.amount then
      ⟨.error (.genericErr (str "Amount exceeds max deposit")), m, []⟩
    else
      let secret := bytesToHex o.secretBytes
      let nullifier := bytesToHex o.nullifierBytes
      let commitment := computeCommitment secret nullifier
      match o.chain with
      | ChainRes.failed msg => ⟨.error (.transactionErr msg), m, [Eff.signTx (str "deposit")]⟩
      | ChainRes.confirmed sig =>
        let note : DepositNote := ⟨commitment, nullifier, secret, req.amount, token, o.now⟩
        ⟨.ok ⟨sig, encodeNote note, (1 / 200 : ℚ) * req.amount⟩,
          mapSet m commitment note,
          [Eff.signTx (str "deposit"), Eff.sendTx, Eff.confirmTx]⟩

/-- The `PrivacyCashAdapter.withdraw`: decode the supplied note (notes whose
JSON lacks a field are treated as decode failures; the source would carry
JS `undefined` fields instead), look up the pool of the note's token, build
the withdraw instruction, submit, and only after confirmation delete the
note from the local map.  Failure at any step leaves the map unchanged. -/
def pcWithdraw (m : NoteMap) (req : PcWithdrawReq) (o : PcWithdrawOracle) :
    PcRun WithdrawRes :=
  match req.note with
  | none =>
    ⟨.error (.genericErr (str "Deposit note (commitment) required for withdrawal")), m, []⟩
  | some enc =>
    match (decodeNote enc).bind noteOfRaw with
    | none => ⟨.error (.genericErr (str "Invalid deposit note format")), m, []⟩
    | some note =>
      match POOL_CONFIGS note.token with
      | none =>
        ⟨.error (.genericErr (str "Token " ++ note.token ++ str " not supported")), m, []⟩
      | some _ =>
        match o.chain with
        | ChainRes.failed msg =>
          ⟨.error (.transactionErr msg), m, [Eff.signTx (str "withdraw")]⟩
        | ChainRes.confirmed sig =>
          ⟨.ok ⟨sig, (1 / 200 : ℚ) * note.amount⟩,
            mapDel m note.commitment,
            [Eff.signTx (str "withdraw"), Eff.sendTx, Eff.confirmTx]⟩

/-- The `PrivacyCashAdapter.transfer`: a deposit of the requested amount, then
a withdraw of the note the deposit returned, to the requested recipient;
the reported fee is the sum of the two fees and the anonymity set comes
from the pool configuration. -/
def pcTransfer (m : NoteMap) (req : TransferReq) (o1 : PcDepositOracle)
    (o2 : PcWithdrawOracle) : PcRun PcTransferRes :=
  let d := pcDeposit m ⟨req.amount, req.token⟩ o1
  match d.outcome with
  | .error e => ⟨.error e, d.notes, d.effs⟩
  | .ok dres =>
    let w := pcWithdraw d.notes ⟨some dres.commitment, req.recipient⟩ o2
    match w.outcome with
    | .error e => ⟨.error e, w.notes, d.effs ++ w.effs⟩
    | .ok wres =>
      ⟨.ok ⟨wres.signature, dres.fee + wres.fee,
          (POOL_CONFIGS (upper req.token)).map PoolConfig.anonymitySet⟩,
        w.notes, d.effs ++ w.effs⟩

/-! ## Estimate requests and results (shared shape) -/

/-- An estimate request (`token` and `amount` are optional in the source;
`operation` is compared against string literals). -/
structure EstimateReq where
  token : Option Str
  amount : Option ℚ
  operation : Str
  privacy : Option PrivLevel
deriving DecidableEq, Repr

/-- An estimate result (provider field omitted; `none` models an absent
optional field). -/
structure EstimateRes where
  fee : ℚ
  tokenFee : Option ℚ
  latencyMs : Nat
  anonymitySet : Option Nat
  warnings : List Str
deriving DecidableEq, Repr

/-- The `request.token || 'SOL'` (the empty string is falsy in JS). -/
def tokenOrSOL (t : Option Str) : Str :=
  match t with
  | none => str "SOL"
  | some s => if s = [] then str "SOL" else s

/-- The `request.amount || 0`. -/
def amountOr0 (a : Option ℚ) : ℚ :=
  match a with
  | none => 0
  | some x => x

/-- The `PrivacyCashAdapter.estimate`.  (Numerals embedded in warning strings
are rendered with the model's number printer.) -/
def pcEstimate (req : EstimateReq) : EstimateRes :=
  let token := upper (tokenOrSOL req.token)
  match POOL_CONFIGS token with
  | none => ⟨0, none, 0, none, [str "Token " ++ token ++ str " not supported by Privacy Cash"]⟩
  | some cfg =>
    let amount := amountOr0 req.amount
    let baseFee := amount * (1 / 200 : ℚ)
    let fee := if req.operation = str "transfer" then baseFee * 2 else baseFee
    let warnings :=
      (if 0 < amount ∧ amount < cfg.minDeposit then
        [str "Amount below minimum " ++ qDec cfg.minDeposit ++ str " " ++ token] else []) ++
      (if cfg.maxDeposit < amount then
        [str "Amount exceeds maximum " ++ qDec cfg.maxDeposit ++ str " " ++ token] else [])
    ⟨fee, some fee, if req.operation = str "transfer" then 15000 else 8000,
      some cfg.anonymitySet, warnings⟩

/-! ## `retry` (`utils/index.ts`) -/

/-- Result of a `retry` run: the final outcome, how many times `fn` was
invoked, and the back-off delays that were awaited between attempts. -/
structure RetryRun (ε α : Type) where
  outcome : Except ε α
  calls : Nat
  delays : List Nat
deriving Repr

/-- The `retry` loop from attempt number `attempt` with `left` retries
remaining: call `fn`; on success return; on failure rethrow when retries
are exhausted or `shouldRetry` declines, otherwise wait
`min(baseDelayMs * 2 ^ attempt, maxDelayMs)` and loop. -/
def retryFrom (fn : Nat → Except ε α) (shouldRetry : ε → Bool) (base maxD : Nat) :
    Nat → Nat → RetryRun ε α
  | attempt, left =>
    match fn attempt with
    | .ok a => ⟨.ok a, 1, []⟩
    | .error e =>
      match left with
      | 0 => ⟨.error e, 1, []⟩
      | left' + 1 =>
        if shouldRetry e then
          let r := retryFrom fn shouldRetry base maxD (attempt + 1) left'
          ⟨r.outcome, r.calls + 1, min (base * 2 ^ attempt) maxD :: r.delays⟩
        else ⟨.error e, 1, []⟩

/-- The `retry(fn, {maxRetries, baseDelayMs, maxDelayMs, shouldRetry})`.  The
source defaults are `maxRetries = 3`, `baseDelayMs = 1000`,
`maxDelayMs = 10000`, `shouldRetry = () => true`. -/
def retryRun (fn : Nat → Except ε α) (shouldRetry : ε → Bool)
    (maxRetries base maxD : Nat) : RetryRun ε α :=
  retryFrom fn shouldRetry base maxD 0 maxRetries

/-- The default retry predicate: every error is retried. -/
def defaultShouldRetry : PKErr → Bool := fun _ => true

/-- The `fn` is always invoked at least once. -/
theorem retryFrom_calls_pos (fn : Nat → Except ε α) (sr : ε → Bool) (b M : Nat) :
    ∀ (left attempt : Nat), 1 ≤ (retryFrom fn sr b M attempt left).calls := by
  intro left
  induction left with
  | zero =>
    intro attempt
    rw [retryFrom]
    rcases h : fn attempt with e | a <;> simp [h]
  | succ left ih =>
    intro attempt
    rw [retryFrom]
    rcases h : fn attempt with e | a
    · by_cases hsr : sr e
      · simp [h, hsr]
      · simp [h, hsr]
    · simp [h]

/-- The `fn` is invoked at most `left + 1` times. -/
theorem retryFrom_calls_le (fn : Nat → Except ε α) (sr : ε → Bool) (b M : Nat) :
    ∀ (left attempt : Nat), (retryFrom fn sr b M attempt left).calls ≤ left + 1 := by
  intro left
  induction left with
  | zero =>
    intro attempt
    rw [retryFrom]
    rcases h : fn attempt with e | a <;> simp [h]
  | succ left ih =>
    intro attempt
    rw [retryFrom]
    rcases h : fn attempt with e | a
    · by_cases hsr : sr e
      · simp only [h, hsr, if_true]
        have := ih (attempt + 1)
        simp [h, hsr]
        all_goals omega
      · simp [h, hsr]
    · simp [h]

/-- The awaited delays are exactly the capped exponential back-off values,
one per retry actually performed. -/
theorem retryFrom_delays (fn : Nat → Except ε α) (sr : ε → Bool) (b M : Nat) :
    ∀ (left attempt : Nat),
      (retryFrom fn sr b M attempt left).delays =
        (List.range ((retryFrom fn sr b M attempt left).calls - 1)).map
          (fun i => min (b * 2 ^ (attempt + i)) M) := by
  intro left
  induction left with
  | zero =>
    intro attempt
    rw [retryFrom]
    rcases h : fn attempt with e | a <;> simp [h]
  | succ left ih =>
    intro attempt
    rw [retryFrom]
    rcases h : fn attempt with e | a
    · by_cases hsr : sr e
      · simp only [h, hsr, if_true]
        have hpos := retryFrom_calls_pos fn sr b M left (attempt + 1)
        have ihh := ih (attempt + 1)
        obtain ⟨k, hk⟩ : ∃ k, (retryFrom fn sr b M (attempt + 1) left).calls = k + 1 :=
          ⟨(retryFrom fn sr b M (attempt + 1) left).calls - 1, by omega⟩
        rw [ihh, hk]
        simp only [Nat.add_sub_cancel, List.range_succ_eq_map, List.map_cons, List.map_map,
          List.cons.injEq]
        refine ⟨by simp, ?_⟩
        apply List.map_congr_left
        intro i _
        have he2 : attempt + 1 + i = attempt + (i + 1) := by omega
        simp [Function.comp, he2]
      · simp [h, hsr]
    · simp [h]

/-- Every attempt that was followed by another one failed with an error the
predicate approved. -/
theorem retryFrom_retried (fn : Nat → Except ε α) (sr : ε → Bool) (b M : Nat) :
    ∀ (left attempt i : Nat), i + 1 < (retryFrom fn sr b M attempt left).calls →
      ∃ e, fn (attempt + i) = .error e ∧ sr e = true := by
  intro left
  induction left with
  | zero =>
    intro attempt i hi
    rw [retryFrom] at hi
    rcases h : fn attempt with e | a <;> simp [h] at hi
  | succ left ih =>
    intro attempt i hi
    rw [retryFrom] at hi
    rcases h : fn attempt with e | a
    · by_cases hsr : sr e
      · simp only [h, hsr, if_true] at hi
        match i with
        | 0 => exact ⟨e, by simpa using h, hsr⟩
        | i + 1 =>
          have := ih (attempt + 1) i (by simp at hi; omega)
          rwa [show attempt + 1 + i = attempt + (i + 1) by omega] at this
      · simp [h, hsr] at hi
    · simp [h] at hi

/-- When the run ends in an error, it is the error of the last attempt
made, and retrying stopped either because the predicate declined it or
because the retry budget was exhausted. -/
theorem retryFrom_error (fn : Nat → Except ε α) (sr : ε → Bool) (b M : Nat) :
    ∀ (left attempt : Nat) (e : ε),
      (retryFrom fn sr b M attempt left).outcome = .error e →
        fn (attempt + ((retryFrom fn sr b M attempt left).calls - 1)) = .error e ∧
          (sr e = false ∨ (retryFrom fn sr b M attempt left).calls = left + 1) := by
  intro left
  induction left with
  | zero =>
    intro attempt e he
    rw [retryFrom] at he ⊢
    rcases h : fn attempt with e1 | a <;> simp [h] at he ⊢
    · exact he ▸ rfl
  | succ left ih =>
    intro attempt e he
    rw [retryFrom] at he ⊢
    rcases h : fn attempt with e1 | a
    · by_cases hsr : sr e1
      · simp only [h, hsr, if_true] at he ⊢
        have hpos := retryFrom_calls_pos fn sr b M left (attempt + 1)
        obtain ⟨h1, h2⟩ := ih (attempt + 1) e he
        refine ⟨?_, ?_⟩
        · rw [show attempt + ((retryFrom fn sr b M (attempt + 1) left).calls + 1 - 1) =
            attempt + 1 + ((retryFrom fn sr b M (attempt + 1) left).calls - 1) by omega]
          exact h1
        · rcases h2 with h2 | h2
          · exact Or.inl h2
          · right
            omega
      · simp only [h, hsr, if_false] at he ⊢
        simp at he
        subst he
        simp [h, hsr]
    · simp [h] at he

/-- When every attempt fails with a retryable error, the whole budget is
used and the final outcome is the last attempt's result. -/
theorem retryFrom_exhaust (fn : Nat → Except ε α) (sr : ε → Bool) (b M : Nat)
    (hall : ∀ i, ∃ e, fn i = .error e ∧ sr e = true) :
    ∀ (left attempt : Nat),
      (retryFrom fn sr b M attempt left).calls = left + 1 ∧
        (retryFrom fn sr b M attempt left).outcome = fn (attempt + left) := by
  intro left
  induction left with
  | zero =>
    intro attempt
    obtain ⟨e, he, _⟩ := hall attempt
    rw [retryFrom]
    simp [he]
  | succ left ih =>
    intro attempt
    obtain ⟨e, he, hsr⟩ := hall attempt
    rw [retryFrom]
    simp only [he, hsr, if_true]
    obtain ⟨h1, h2⟩ := ih (attempt + 1)
    refine ⟨by simp [h1], ?_⟩
    simp only [h2]
    rw [show attempt + 1 + left = attempt + (left + 1) by omega]

/-! ## `ShadowWireAdapter` -/

/-- Per-token ShadowWire configuration. -/
structure SwTokenCfg where
  decimals : Nat
  fee : ℚ
  minAmount : ℚ
deriving DecidableEq, Repr

/-- The `SHADOWWIRE_TOKENS`: the full 22-token table. -/
def SHADOWWIRE_TOKENS (t : Str) : Option SwTokenCfg :=
  if t = str "SOL" then some ⟨9, 1 / 200, 1 / 100⟩
  else if t = str "RADR" then some ⟨9, 3 / 1000, 1 / 10⟩
  else if t = str "USDC" then some ⟨6, 1 / 100, 1⟩
  else if t = str "ORE" then some ⟨11, 3 / 1000, 1 / 1000⟩
  else if t = str "BONK" then some ⟨5, 1 / 100, 100000⟩
  else if t = str "JIM" then some ⟨9, 1 / 100, 1⟩
  else if t = str "GODL" then some ⟨11, 1 / 100, 1 / 1000⟩
  else if t = str "HUSTLE" then some ⟨9, 3 / 1000, 1 / 10⟩
  else if t = str "ZEC" then some ⟨9, 1 / 100, 1 / 100⟩
  else if t = str "CRT" then some ⟨9, 1 / 100, 1⟩
  else if t = str "BLACKCOIN" then some ⟨6, 1 / 100, 1⟩
  else if t = str "GIL" then some ⟨6, 1 / 100, 1⟩
  else if t = str "ANON" then some ⟨9, 1 / 100, 1⟩
  else if t = str "WLFI" then some ⟨6, 1 / 100, 1⟩
  else if t = str "USD1" then some ⟨6, 1 / 100, 1⟩
  else if t = str "AOL" then some ⟨6, 1 / 100, 1⟩
  else if t = str "IQLABS" then some ⟨9, 1 / 200, 1 / 10⟩
  else if t = str "SANA" then some ⟨6, 1 / 100, 1⟩
  else if t = str "POKI" then some ⟨9, 1 / 100, 1⟩
  else if t = str "RAIN" then some ⟨6, 1 / 50, 1⟩
  else if t = str "HOSICO" then some ⟨9, 1 / 100, 1⟩
  else if t = str "SKR" then some ⟨6, 1 / 200, 1⟩
  else none

/-- The `needle` begins `hay`. -/
def leadEq : Str → Str → Bool
  | _, [] => true
  | [], _ :: _ => false
  | h :: hs, n :: ns => h = n && leadEq hs ns

/-- The `String.prototype.includes`. -/
def hasSub : Str → Str → Bool
  | [], needle => needle.isEmpty
  | h :: hs, needle => leadEq (h :: hs) needle || hasSub hs needle

/-- One HTTP exchange as the adapter observes it: a transport failure, or a
response with its HTTP `ok` flag, the error message of a non-ok body, and
the success flag, transaction id, reported fee and error text of an ok
body. -/
inductive SwHttp where
  | transport (msg : Str)
  | reply (ok : Bool) (errMsg : Str) (success : Bool) (txId : Str) (fee : ℚ)
deriving DecidableEq, Repr

/-- The parsed body of an accepted (HTTP-ok) response. -/
structure SwReply where
  success : Bool
  txId : Str
  fee : ℚ
  errMsg : Str
deriving DecidableEq, Repr

/-- The body of `transfer`'s retried closure: a thrown transport error
propagates; a non-ok response is classified by keyword match into
`RecipientNotFound` / `InsufficientBalance` / `TransactionError`. -/
def classifyTransfer (amount : ℚ) (token recipient : Str) : SwHttp → Except PKErr SwReply
  | SwHttp.transport msg => .error (.networkErr msg)
  | SwHttp.reply ok errMsg success txId fee =>
    if ok then .ok ⟨success, txId, fee, errMsg⟩
    else if hasSub errMsg (str "not found") then .error (.recipientNotFound recipient)
    else if hasSub errMsg (str "insufficient") then .error (.insufficientBalance amount 0 token)
    else .error (.transactionErr errMsg)

/-- The body of `deposit`'s and `withdraw`'s retried closures: a non-ok
response is always a `TransactionError`. -/
def classifyPlain : SwHttp → Except PKErr SwReply
  | SwHttp.transport msg => .error (.networkErr msg)
  | SwHttp.reply ok errMsg success txId fee =>
    if ok then .ok ⟨success, txId, fee, errMsg⟩
    else .error (.transactionErr errMsg)

/-- Outcome, effect trace and remote call count of a ShadowWire operation. -/
structure SwRun (α : Type) where
  outcome : Except PKErr α
  effs : List Eff
  calls : Nat
deriving Repr

/-- A ShadowWire transfer request. -/
structure SwTransferReq where
  amount : ℚ
  token : Str
  recipient : Str
  privacy : PrivLevel
deriving DecidableEq, Repr

/-- A ShadowWire transfer result. -/
structure SwTransferRes where
  signature : Str
  privacyLevel : PrivLevel
  fee : ℚ
deriving DecidableEq, Repr

/-- The `response.error || 'fallback'`. -/
def msgOr (msg fallback : Str) : Str := if msg = [] then fallback else msg

/-- The `ShadowWireAdapter.transfer`: token lookup, minimum check, then a
message signature and the POST wrapped in `retry` with `maxRetries = 2` and
no `shouldRetry` (so the default — retry everything — applies); an ok
response with `success: false` is a `TransactionError` raised outside the
retry; the fee falls back to `amount * fee_fraction` when the server
reports `0` (a falsy fee in JS). -/
def swTransfer (req : SwTransferReq) (oracle : Nat → SwHttp) : SwRun SwTransferRes :=
  let token := upper req.token
  match SHADOWWIRE_TOKENS token with
  | none =>
    ⟨.error (.genericErr (str "Token " ++ req.token ++ str " not supported by ShadowWire")),
      [], 0⟩
  | some cfg =>
    if req.amount < cfg.minAmount then
      ⟨.error (.amountBelowMinimum req.amount cfg.minAmount token Provider.shadowWire), [], 0⟩
    else
      let r := retryRun (fun i => classifyTransfer req.amount token req.recipient (oracle i))
        defaultShouldRetry 2 1000 10000
      let effs := Eff.signMsg (str "transfer") ::
        List.replicate r.calls (Eff.httpPost (str "/v1/transfer"))
      match r.outcome with
      | .error e => ⟨.error e, effs, r.calls⟩
      | .ok rep =>
        if rep.success then
          ⟨.ok ⟨rep.txId, req.privacy,
            if rep.fee = 0 then req.amount * cfg.fee else rep.fee⟩, effs, r.calls⟩
        else ⟨.error (.transactionErr (msgOr rep.errMsg (str "Transfer failed"))), effs, r.calls⟩

/-- A ShadowWire deposit request. -/
structure SwDepositReq where
  amount : ℚ
  token : Str
deriving DecidableEq, Repr

/-- A ShadowWire deposit result. -/
structure SwDepositRes where
  signature : Str
  commitment : Option Str
  fee : ℚ
deriving DecidableEq, Repr

/-- The `ShadowWireAdapter.deposit`: token lookup, minimum check, then sign and
POST under `retry` with `maxRetries = 2`; the fee is always
`amount * fee_fraction`. -/
def swDeposit (req : SwDepositReq) (oracle : Nat → SwHttp)
    (commitmentOf : SwReply → Option Str) : SwRun SwDepositRes :=
  let token := upper req.token
  match SHADOWWIRE_TOKENS token with
  | none =>
    ⟨.error (.genericErr (str "Token " ++ req.token ++ str " not supported by ShadowWire")),
      [], 0⟩
  | some cfg =>
    if req.amount < cfg.minAmount then
      ⟨.error (.amountBelowMinimum req.amount cfg.minAmount token Provider.shadowWire), [], 0⟩
    else
      let r := retryRun (fun i => classifyPlain (oracle i)) defaultShouldRetry 2 1000 10000
      let effs := Eff.signMsg (str "deposit") ::
        List.replicate r.calls (Eff.httpPost (str "/v1/deposit"))
      match r.outcome with
      | .error e => ⟨.error e, effs, r.calls⟩
      | .ok rep =>
        if rep.success then
          ⟨.ok ⟨rep.txId, commitmentOf rep, req.amount * cfg.fee⟩, effs, r.calls⟩
        else ⟨.error (.transactionErr (msgOr rep.errMsg (str "Deposit failed"))), effs, r.calls⟩

/-- A ShadowWire withdraw request. -/
structure SwWithdrawReq where
  amount : ℚ
  token : Str
  recipient : Str
deriving DecidableEq, Repr

/-- The `ShadowWireAdapter.withdraw`: token lookup — but, unlike `transfer` and
`deposit`, NO minimum-amount check — then sign and POST under `retry` with
`maxRetries = 2`. -/
def swWithdraw (req : SwWithdrawReq) (oracle : Nat → SwHttp) : SwRun WithdrawRes :=
  let token := upper req.token
  match SHADOWWIRE_TOKENS token with
  | none =>
    ⟨.error (.genericErr (str "Token " ++ req.token ++ str " not supported by ShadowWire")),
      [], 0⟩
  | some cfg =>
    let r := retryRun (fun i => classifyPlain (oracle i)) defaultShouldRetry 2 1000 10000
    let effs := Eff.signMsg (str "withdraw") ::
      List.replicate r.calls (Eff.httpPost (str "/v1/withdraw"))
    match r.outcome with
    | .error e => ⟨.error e, effs, r.calls⟩
    | .ok rep =>
      if rep.success then
        ⟨.ok ⟨rep.txId, req.amount * cfg.fee⟩, effs, r.calls⟩
      else ⟨.error (.transactionErr (msgOr rep.errMsg (str "Withdrawal failed"))), effs, r.calls⟩

/-- The `ShadowWireAdapter.estimate`. -/
def swEstimate (req : EstimateReq) : EstimateRes :=
  let token := upper (tokenOrSOL req.token)
  match SHADOWWIRE_TOKENS token with
  | none => ⟨0, none, 0, none, [str "Token " ++ token ++ str " not supported by ShadowWire"]⟩
  | some cfg =>
    let amount := amountOr0 req.amount
    let fee := amount * cfg.fee
    let warnings :=
      if 0 < amount ∧ amount < cfg.minAmount then
        [str "Amount " ++ qDec amount ++ str " " ++ token ++
          str " is below minimum " ++ qDec cfg.minAmount]
      else []
    let latencyMs :=
      if req.operation = str "transfer" then
        if req.privacy = some PrivLevel.amountHidden then 5000 else 3000
      else if req.operation = str "deposit" ∨ req.operation = str "withdraw" then 4000
      else 3000
    ⟨fee, some fee, latencyMs, some 500, warnings⟩

/-! ## `ArciumAdapter` -/

/-- The `CSPL_TOKENS`: decimals of the two confidential SPL tokens. -/
def CSPL_TOKENS (t : Str) : Option Nat :=
  if t = str "SOL" then some 9
  else if t = str "USDC" then some 6
  else none

/-- Outcome and effect trace of an Arcium operation. -/
structure ArcRun (α : Type) where
  outcome : Except PKErr α
  effs : List Eff
deriving Repr

/-- An Arcium transfer result. -/
structure ArcTransferRes where
  signature : Str
  fee : ℚ
  anonymitySet : Option Nat
deriving DecidableEq, Repr

/-- The `ArciumAdapter.transfer`: token lookup, then MPC-encrypt the amount,
sign and submit.  There is NO minimum-amount check anywhere on this path;
the fee is `0.002 * amount`. -/
def arciumTransfer (req : TransferReq) (chain : ChainRes) : ArcRun ArcTransferRes :=
  match CSPL_TOKENS (upper req.token) with
  | none =>
    ⟨.error (.genericErr (str "Token " ++ req.token ++ str " not supported by Arcium")), []⟩
  | some _ =>
    match chain with
    | ChainRes.failed msg =>
      ⟨.error (.transactionErr msg), [Eff.signTx (str "confidential-transfer")]⟩
    | ChainRes.confirmed sig =>
      ⟨.ok ⟨sig, (1 / 500 : ℚ) * req.amount, some 1000⟩,
        [Eff.signTx (str "confidential-transfer"), Eff.sendTx, Eff.confirmTx]⟩

/-- The `ArciumAdapter.estimate`. -/
def arciumEstimate (req : EstimateReq) : EstimateRes :=
  let token := upper (tokenOrSOL req.token)
  let amount := amountOr0 req.amount
  match CSPL_TOKENS token with
  | none => ⟨0, none, 0, none, [str "Token " ++ token ++ str " not supported by Arcium"]⟩
  | some _ =>
    let latencyMs :=
      if req.operation = str "transfer" then 8000
      else if req.operation = str "deposit" then 5000
      else if req.operation = str "withdraw" then 6000
      else 3000
    let fee := amount * (1 / 500 : ℚ)
    ⟨fee, some fee, latencyMs, none, []⟩

/-! ## Helper lemmas for the claim theorems -/

/-- A buffer denoting an integer at or above the field modulus cannot be a
Poseidon image. -/
theorem not_poseidonImage_of_ge {bytes : List Nat}
    (h : snarkFieldSize ≤ beValue bytes) : ¬ isPoseidonImage bytes := by
  rintro ⟨x, hx, hvx⟩
  omega

/-- Every character `bytesToHex` can emit is safe for the JSON fragment. -/
theorem hexChar_safe (k : Nat) :
    (hexChar k).toNat < 128 ∧ hexChar k ≠ quoteC ∧ hexChar k ≠ bslashC := by
  by_cases hk : k < 16
  · have : ∀ j < 16, (hexChar j).toNat < 128 ∧ hexChar j ≠ quoteC ∧ hexChar j ≠ bslashC := by
      decide
    exact this k hk
  · have hlen : (str "0123456789abcdef").length ≤ k := by
      simpa [str] using Nat.le_of_not_lt hk
    simp only [hexChar, List.getD_eq_default _ _ hlen]
    decide

/-- Hex renderings of byte lists are safe JSON strings. -/
theorem bytesToHex_safe (bs : List Nat) : safeStr (bytesToHex bs) := by
  intro c hcm
  simp only [bytesToHex, List.mem_flatMap, byteHex] at hcm
  obtain ⟨b, _, hc⟩ := hcm
  simp only [List.mem_cons, List.mem_singleton, List.not_mem_nil, or_false] at hc
  rcases hc with rfl | rfl <;> exact hexChar_safe _

/-- A pool configuration exists only for the two table tokens. -/
theorem POOL_CONFIGS_tokens {t : Str} {cfg : PoolConfig}
    (h : POOL_CONFIGS t = some cfg) : t = str "SOL" ∨ t = str "USDC" := by
  by_cases h1 : t = str "SOL"
  · exact Or.inl h1
  · by_cases h2 : t = str "USDC"
    · exact Or.inr h2
    · simp [POOL_CONFIGS, h1, h2] at h

/-- The head of a base64 encoding of a non-empty byte list is the alphabet
character of the first byte's high six bits. -/
theorem b64encode_head (a : Nat) (rest : List Nat) :
    (b64encode (a :: rest)).head? = some (sixChar (a / 4)) := by
  match rest with
  | [] => rfl
  | [b] => rfl
  | b :: c :: rest2 => rfl

/-- The SOL pool configuration (used by concrete instances). -/
def solPool : PoolConfig := (POOL_CONFIGS (str "SOL")).getD ⟨[], 0, 0, 0, 0⟩

/-- The concrete 62-character hex string of 31 `0xff` bytes: a value
`randomBytes(31)` can produce for a secret or nullifier. -/
def ffHex : Str := List.replicate 62 'f'

/-- C1 (code_bug evidence): at the stored secret/nullifier `ffHex`/`ffHex`,
`computeCommitment` returns the first 32 bytes of the concatenated hex
material and `hashNullifier` returns the nullifier itself; the commitment
bytes and the 32-byte nullifier-hash field that `createWithdrawInstruction`
writes both denote integers at or above the BN254 field modulus, so neither
can equal a Poseidon hash (whose outputs are field elements below the
modulus), contradicting the claim that they are
`Poseidon(secret, nullifier)` and `Poseidon(nullifier)`. -/
theorem claim_C1_commitment_not_poseidon :
    hashNullifier ffHex = ffHex ∧
    computeCommitment ffHex ffHex = List.replicate 64 'f' ∧
    ¬ isPoseidonImage (hexToBytes (computeCommitment ffHex ffHex)) ∧
    ((createWithdrawInstruction ffHex (List.replicate 64 '0') [] solPool).data.drop 1).take 32 =
      hexToBytes ffHex ++ [0] ∧
    ¬ isPoseidonImage (hexToBytes ffHex ++ [0]) := by
  refine ⟨by decide, by decide, not_poseidonImage_of_ge (by decide), by decide,
    not_poseidonImage_of_ge (by decide)⟩

/-- A concrete deposit note. -/
def c2Note : DepositNote := ⟨str "aa", str "bb", str "cc", 5, str "SOL", 1700000000000⟩

/-- C2 (counterexample): the encoding of a concrete note does not begin
with the `privacy-cash-note-v1-` tag the claim requires, and `decodeNote`
accepts the tagless string instead of failing on the bad tag. -/
theorem claim_C2_counterexample :
    (encodeNote c2Note).take 21 ≠ str "privacy-cash-note-v1-" ∧
    (decodeNote (encodeNote c2Note)).isSome = true := by
  constructor
  · decide
  · decide

/-- The first character of every encoded note is `e` (the base64 image of
the high six bits of the opening brace), never the `p` a version tag would
start with. -/
theorem encodeNote_head (nt : DepositNote) : (encodeNote nt).head? = some 'e' := by
  have h := b64encode_head (Char.toNat obC)
    ((fieldMore (str "c") (jStr nt.commitment)
      (fieldMore (str "n") (jStr nt.nullifier)
        (fieldMore (str "s") (jStr nt.secret)
          (fieldMore (str "a") (qDec nt.amount)
            (fieldMore (str "t") (jStr nt.token)
              (fieldLast (str "ts") (natDec nt.timestamp))))))).map Char.toNat)
  have he : sixChar (Char.toNat obC / 4) = 'e' := by decide
  rw [he] at h
  exact h

/-- C2 (amended): `encode_note` is the standard (non-URL-safe) base64 of
the UTF-8 JSON object with fields `c, n, s, a, t, ts` in that order —
hex strings, not decimal, with no `nu` or `li` field and no
`privacy-cash-note-v1-` tag — and `decode_note` reverses exactly this
encoding (without tag or missing-field checks): decoding an encoded note
and reading its fields returns the note unchanged. -/
theorem claim_C2_note_encoding (nt : DepositNote)
    (hc : safeStr nt.commitment) (hn : safeStr nt.nullifier) (hs : safeStr nt.secret)
    (ht : safeStr nt.token) (ha : 0 ≤ nt.amount.num ∧ nt.amount.den = 1) :
    (decodeNote (encodeNote nt)).bind noteOfRaw = some nt ∧
    (encodeNote nt).take 21 ≠ str "privacy-cash-note-v1-" := by
  refine ⟨noteOfRaw_decode nt hc hn hs ht ha, ?_⟩
  intro heq
  have hh := encodeNote_head nt
  have hp : ((encodeNote nt).take 21).head? = some 'p' := by rw [heq]; decide
  rcases hx : encodeNote nt with _ | ⟨c, rest⟩
  · rw [hx] at hh; exact Option.noConfusion hh
  · rw [hx] at hh hp
    simp only [List.head?_cons, Option.some.injEq] at hh
    rw [show (21 : Nat) = 20 + 1 from rfl, List.take_succ_cons] at hp
    simp only [List.head?_cons, Option.some.injEq] at hp
    rw [hh] at hp
    exact absurd hp (by decide)

/-- C2 (witness): the amended round-trip and tag facts at the concrete
note. -/
theorem claim_C2_note_encoding_witness :
    (decodeNote (encodeNote c2Note)).bind noteOfRaw = some c2Note ∧
    (encodeNote c2Note).take 21 ≠ str "privacy-cash-note-v1-" :=
  claim_C2_note_encoding c2Note (by decide) (by decide) (by decide) (by decide)
    (by constructor <;> decide)

/-- C7 (witness): the layout and seeds at a concrete nullifier, root and
proof. -/
theorem claim_C7_withdraw_instruction_witness :
    (createWithdrawInstruction (List.replicate 62 'a') (List.replicate 64 '1')
        [9, 8, 7] solPool).data =
      2 :: (hexToBytes (hashNullifier (List.replicate 62 'a')) ++
        (List.replicate (32 - (hexToBytes (hashNullifier (List.replicate 62 'a'))).length) 0 ++
          (hexToBytes (List.replicate 64 '1') ++
            (u32le ([9, 8, 7] : List Nat).length ++ [9, 8, 7])))) ∧
    (createWithdrawInstruction (List.replicate 62 'a') (List.replicate 64 '1')
        [9, 8, 7] solPool).poolSeeds = [Seed.lit (str "pool"), Seed.key solPool.mint] ∧
    (createWithdrawInstruction (List.replicate 62 'a') (List.replicate 64 '1')
        [9, 8, 7] solPool).nullifierSeeds =
      [Seed.lit (str "nullifier"),
        Seed.bytes (hexToBytes (hashNullifier (List.replicate 62 'a')))] :=
  claim_C7_withdraw_instruction (List.replicate 62 'a') (List.replicate 64 '1')
    [9, 8, 7] solPool (by decide) (by decide)

/-- C8: with the default options (`maxRetries = 3`, `baseDelayMs = 1000`,
`maxDelayMs = 10000`), `retry` invokes `fn` at most 4 times; between
consecutive attempts it waits exactly `min(1000 * 2 ^ attempt, 10000)`
milliseconds; every attempt that was retried had failed with an error the
predicate approved (so retrying stops as soon as `should_retry` declines);
and an error outcome is the last attempt's error, thrown either because the
predicate declined it or because all four attempts were used. -/
theorem claim_C8_retry_defaults {ε α : Type} (fn : Nat → Except ε α) (sr : ε → Bool) :
    (retryRun fn sr 3 1000 10000).calls ≤ 4 ∧
    (retryRun fn sr 3 1000 10000).delays =
      (List.range ((retryRun fn sr 3 1000 10000).calls - 1)).map
        (fun i => min (1000 * 2 ^ i) 10000) ∧
    (∀ i, i + 1 < (retryRun fn sr 3 1000 10000).calls →
      ∃ e, fn i = .error e ∧ sr e = true) ∧
    (∀ e, (retryRun fn sr 3 1000 10000).outcome = .error e →
      fn ((retryRun fn sr 3 1000 10000).calls - 1) = .error e ∧
        (sr e = false ∨ (retryRun fn sr 3 1000 10000).calls = 4)) := by
  refine ⟨retryFrom_calls_le fn sr 1000 10000 3 0, ?_, ?_, ?_⟩
  · have h := retryFrom_delays fn sr 1000 10000 3 0
    simpa using h
  · intro i hi
    have h := retryFrom_retried fn sr 1000 10000 3 0 i hi
    simpa using h
  · intro e he
    have h := retryFrom_error fn sr 1000 10000 3 0 e he
    simpa using h

/-- C8 (witness): on an always-failing function with the always-retry
predicate, the run makes 4 calls, waits 1 s, 2 s, 4 s, and rethrows the
last error. -/
theorem claim_C8_retry_defaults_witness :
    (retryRun (fun _ => (Except.error (PKErr.networkErr []) : Except PKErr Str))
        (fun _ => true) 3 1000 10000).calls ≤ 4 ∧
    (retryRun (fun _ => (Except.error (PKErr.networkErr []) : Except PKErr Str))
        (fun _ => true) 3 1000 10000).delays = [1000, 2000, 4000] := by
  have h := claim_C8_retry_defaults
    (fun _ => (Except.error (PKErr.networkErr []) : Except PKErr Str)) (fun _ => true)
  refine ⟨h.1, ?_⟩
  rw [h.2.1]
  decide

/-- The balance accumulation loop is the sum of the matching notes'
amounts. -/
theorem balance_foldl (norm : Str) :
    ∀ (l : List DepositNote) (acc : ℚ),
      l.foldl (fun total note => if note.token = norm then total + note.amount else total) acc =
        acc + ((l.filter (fun note => decide (note.token = norm))).map DepositNote.amount).sum := by
  intro l
  induction l with
  | nil => intro acc; simp
  | cons nt l ih =>
    intro acc
    by_cases h : nt.token = norm
    · simp only [List.foldl_cons, if_pos h]
      rw [ih (acc + nt.amount)]
      have hf : (nt :: l).filter (fun note => decide (note.token = norm)) =
          nt :: l.filter (fun note => decide (note.token = norm)) := by
        simp [List.filter_cons, h]
      rw [hf]
      simp only [List.map_cons, List.sum_cons]
      ring
    · simp only [List.foldl_cons, if_neg h]
      have hf : (nt :: l).filter (fun note => decide (note.token = norm)) =
          l.filter (fun note => decide (note.token = norm)) := by
        simp [List.filter_cons, h]
      rw [hf]
      exact ih acc

/-- C9: `getBalance` returns the sum of the amounts of the locally stored
unspent notes whose token equals the upper-cased requested token (no chain
access appears in the model because the source consults none), and throws
for a token without a pool configuration. -/
theorem claim_C9_local_balance (m : NoteMap) (token : Str) :
    (∀ cfg, POOL_CONFIGS (upper token) = some cfg →
      pcGetBalance m token =
        .ok (((mapValues m).filter
          (fun note => decide (note.token = upper token))).map DepositNote.amount).sum) ∧
    (POOL_CONFIGS (upper token) = none →
      pcGetBalance m token =
        .error (.genericErr (str "Token " ++ token ++ str " not supported by Privacy Cash"))) := by
  constructor
  · intro cfg hcfg
    simp only [pcGetBalance, hcfg]
    rw [balance_foldl (upper token) (mapValues m) 0]
    rw [zero_add]
  · intro hcfg
    simp only [pcGetBalance, hcfg]

/-- A concrete note map: two SOL notes and one USDC note. -/
def c9Map : NoteMap :=
  [(str "k1", ⟨str "k1", str "n1", str "s1", 3, str "SOL", 1⟩),
   (str "k2", ⟨str "k2", str "n2", str "s2", 20, str "USDC", 2⟩),
   (str "k3", ⟨str "k3", str "n3", str "s3", 4, str "SOL", 3⟩)]

/-- C9 (witness): on the concrete map, `getBalance("sol")` sums exactly the
two SOL notes and an unknown token throws. -/
theorem claim_C9_local_balance_witness :
    pcGetBalance c9Map (str "sol") = .ok 7 ∧
    pcGetBalance c9Map (str "DOGE") =
      .error (.genericErr (str "Token " ++ str "DOGE" ++ str " not supported by Privacy Cash")) := by
  constructor
  · have h := (claim_C9_local_balance c9Map (str "sol")).1
      ⟨str "So11111111111111111111111111111111111111112", 9, 1 / 10, 100, 500⟩
      (by with_unfolding_all decide)
    rw [h]
    with_unfolding_all decide
  · exact (claim_C9_local_balance c9Map (str "DOGE")).2 (by with_unfolding_all decide)

/-- A string begins with itself (followed by anything). -/
theorem leadEq_append : ∀ t b : Str, leadEq (t ++ b) t = true := by
  intro t
  induction t with
  | nil => intro b; cases b <;> rfl
  | cons c t ih => intro b; simp [leadEq, ih b]

/-- The `includes` finds a non-empty needle spliced into the middle. -/
theorem hasSub_mid : ∀ (a : Str) (c : Char) (t0 b : Str),
    hasSub (a ++ ((c :: t0) ++ b)) (c :: t0) = true := by
  intro a
  induction a with
  | nil =>
    intro c t0 b
    simp only [List.nil_append, List.cons_append, hasSub]
    have := leadEq_append (c :: t0) b
    simp only [List.cons_append] at this
    simp [this]
  | cons x a ih =>
    intro c t0 b
    simp only [List.cons_append, hasSub, List.append_eq]
    have hi := ih c t0 b
    simp only [List.cons_append] at hi
    rw [hi]
    simp

/-- The estimate token default is never the empty string. -/
theorem upper_tokenOrSOL_ne_nil (t : Option Str) : upper (tokenOrSOL t) ≠ [] := by
  match t with
  | none => decide
  | some s =>
    by_cases h : s = []
    · simp only [tokenOrSOL, h, if_pos rfl]
      decide
    · simp only [tokenOrSOL, if_neg h]
      simpa [upper] using h

/-- C10: for each of the ShadowWire, Arcium and Privacy Cash adapters,
`estimate` on a token outside the adapter's support set raises no error:
it returns fee 0, latency 0, no anonymity set, and a single warning string
that names (contains) the unsupported token. -/
theorem claim_C10_estimate_unsupported (req : EstimateReq) :
    (SHADOWWIRE_TOKENS (upper (tokenOrSOL req.token)) = none →
      swEstimate req = ⟨0, none, 0, none,
        [str "Token " ++ upper (tokenOrSOL req.token) ++
          str " not supported by ShadowWire"]⟩ ∧
      hasSub (str "Token " ++ upper (tokenOrSOL req.token) ++
          str " not supported by ShadowWire") (upper (tokenOrSOL req.token)) = true) ∧
    (CSPL_TOKENS (upper (tokenOrSOL req.token)) = none →
      arciumEstimate req = ⟨0, none, 0, none,
        [str "Token " ++ upper (tokenOrSOL req.token) ++ str " not supported by Arcium"]⟩ ∧
      hasSub (str "Token " ++ upper (tokenOrSOL req.token) ++
          str " not supported by Arcium") (upper (tokenOrSOL req.token)) = true) ∧
    (POOL_CONFIGS (upper (tokenOrSOL req.token)) = none →
      pcEstimate req = ⟨0, none, 0, none,
        [str "Token " ++ upper (tokenOrSOL req.token) ++
          str " not supported by Privacy Cash"]⟩ ∧
      hasSub (str "Token " ++ upper (tokenOrSOL req.token) ++
          str " not supported by Privacy Cash") (upper (tokenOrSOL req.token)) = true) := by
  obtain ⟨c, t0, htok⟩ := List.exists_cons_of_ne_nil (upper_tokenOrSOL_ne_nil req.token)
  refine ⟨fun hcfg => ⟨?_, ?_⟩, fun hcfg => ⟨?_, ?_⟩, fun hcfg => ⟨?_, ?_⟩⟩
  · simp only [swEstimate, hcfg]
  · rw [htok]
    have := hasSub_mid (str "Token ") c t0 (str " not supported by ShadowWire")
    simpa [List.append_assoc] using this
  · simp only [arciumEstimate, hcfg]
  · rw [htok]
    have := hasSub_mid (str "Token ") c t0 (str " not supported by Arcium")
    simpa [List.append_assoc] using this
  · simp only [pcEstimate, hcfg]
  · rw [htok]
    have := hasSub_mid (str "Token ") c t0 (str " not supported by Privacy Cash")
    simpa [List.append_assoc] using this

/-- A concrete estimate request for a token none of the adapters support. -/
def c10Req : EstimateReq := ⟨some (str "DOGE"), some 5, str "transfer", none⟩

/-- C10 (witness): all three estimates at the unsupported token `DOGE`. -/
theorem claim_C10_estimate_unsupported_witness :
    swEstimate c10Req = ⟨0, none, 0, none,
      [str "Token " ++ upper (tokenOrSOL c10Req.token) ++
        str " not supported by ShadowWire"]⟩ ∧
    arciumEstimate c10Req = ⟨0, none, 0, none,
      [str "Token " ++ upper (tokenOrSOL c10Req.token) ++
        str " not supported by Arcium"]⟩ ∧
    pcEstimate c10Req = ⟨0, none, 0, none,
      [str "Token " ++ upper (tokenOrSOL c10Req.token) ++
        str " not supported by Privacy Cash"]⟩ := by
  obtain ⟨h1, h2, h3⟩ := claim_C10_estimate_unsupported c10Req
  exact ⟨(h1 (by with_unfolding_all decide)).1, (h2 (by decide)).1,
    (h3 (by with_unfolding_all decide)).1⟩

/-- Below the minimum, `swTransfer` fails before signing or posting. -/
theorem swTransfer_belowMin (req : SwTransferReq) (oracle : Nat → SwHttp)
    (cfg : SwTokenCfg) (hcfg : SHADOWWIRE_TOKENS (upper req.token) = some cfg)
    (hmin : req.amount < cfg.minAmount) :
    swTransfer req oracle =
      ⟨.error (.amountBelowMinimum req.amount cfg.minAmount (upper req.token)
        Provider.shadowWire), [], 0⟩ := by
  simp only [swTransfer, hcfg]
  rw [if_pos hmin]

/-- Below the minimum, `swDeposit` fails before signing or posting. -/
theorem swDeposit_belowMin (req : SwDepositReq) (oracle : Nat → SwHttp)
    (commitmentOf : SwReply → Option Str)
    (cfg : SwTokenCfg) (hcfg : SHADOWWIRE_TOKENS (upper req.token) = some cfg)
    (hmin : req.amount < cfg.minAmount) :
    swDeposit req oracle commitmentOf =
      ⟨.error (.amountBelowMinimum req.amount cfg.minAmount (upper req.token)
        Provider.shadowWire), [], 0⟩ := by
  simp only [swDeposit, hcfg]
  rw [if_pos hmin]

/-- Below the minimum, `pcDeposit` fails before signing or submitting. -/
theorem pcDeposit_belowMin (m : NoteMap) (req : DepositReq) (o : PcDepositOracle)
    (cfg : PoolConfig) (hcfg : POOL_CONFIGS (upper req.token) = some cfg)
    (hmin : req.amount < cfg.minDeposit) :
    pcDeposit m req o =
      ⟨.error (.amountBelowMinimum req.amount cfg.minDeposit (upper req.token)
        Provider.privacyCash), m, []⟩ := by
  simp only [pcDeposit, hcfg]
  rw [if_pos hmin]

/-- The errors thrown inside the deposit/withdraw remote closure are only
transport or transaction errors. -/
theorem classifyPlain_shape (h : SwHttp) (e : PKErr) (he : classifyPlain h = .error e) :
    (∃ m, e = .networkErr m) ∨ (∃ m, e = .transactionErr m) := by
  cases h with
  | transport m =>
    simp only [classifyPlain] at he
    injection he with he2
    exact Or.inl ⟨m, he2.symm⟩
  | reply ok em su tx fe =>
    simp only [classifyPlain] at he
    split at he
    · exact absurd he (by simp)
    · injection he with he2
      exact Or.inr ⟨em, he2.symm⟩

/-- The `swWithdraw` never fails with `AmountBelowMinimum`: it performs no
minimum-amount check. -/
theorem swWithdraw_no_min (req : SwWithdrawReq) (oracle : Nat → SwHttp)
    (a mn : ℚ) (tk : Str) (pv : Provider) :
    (swWithdraw req oracle).outcome ≠ .error (.amountBelowMinimum a mn tk pv) := by
  simp only [swWithdraw]
  cases hcfg : SHADOWWIRE_TOKENS (upper req.token) with
  | none => simp
  | some cfg =>
    simp only []
    rcases ho : (retryRun (fun i => classifyPlain (oracle i))
        defaultShouldRetry 2 1000 10000).outcome with e | rep
    · have herr := retryFrom_error (fun i => classifyPlain (oracle i))
        defaultShouldRetry 1000 10000 2 0 e ho
      obtain ⟨h1, _⟩ := herr
      rcases classifyPlain_shape _ _ h1 with ⟨m, rfl⟩ | ⟨m, rfl⟩ <;> simp [ho]
    · by_cases hs : rep.success <;> simp [ho, hs]

/-- The `arciumTransfer` never fails with `AmountBelowMinimum`: it performs no
minimum-amount check. -/
theorem arciumTransfer_no_min (req : TransferReq) (chain : ChainRes)
    (a mn : ℚ) (tk : Str) (pv : Provider) :
    (arciumTransfer req chain).outcome ≠ .error (.amountBelowMinimum a mn tk pv) := by
  simp only [arciumTransfer]
  cases hcfg : CSPL_TOKENS (upper req.token) with
  | none => simp
  | some d => cases chain <;> simp

/-- C3: the minimum-amount rule holds only where the code implements it.
ShadowWire `transfer` and `deposit` and Privacy Cash `deposit` (and hence
its `transfer`, which deposits first) fail with `AmountBelowMinimum` before
any message is signed or instruction submitted when the amount is below the
per-token minimum; but ShadowWire `withdraw` and the Arcium operations
perform no minimum check at all and can never raise `AmountBelowMinimum`. -/
theorem claim_C3_minimum_checks :
    (∀ (req : SwTransferReq) (oracle : Nat → SwHttp) (cfg : SwTokenCfg),
      SHADOWWIRE_TOKENS (upper req.token) = some cfg → req.amount < cfg.minAmount →
        swTransfer req oracle = ⟨.error (.amountBelowMinimum req.amount cfg.minAmount
          (upper req.token) Provider.shadowWire), [], 0⟩) ∧
    (∀ (req : SwDepositReq) (oracle : Nat → SwHttp) (c : SwReply → Option Str)
      (cfg : SwTokenCfg),
      SHADOWWIRE_TOKENS (upper req.token) = some cfg → req.amount < cfg.minAmount →
        swDeposit req oracle c = ⟨.error (.amountBelowMinimum req.amount cfg.minAmount
          (upper req.token) Provider.shadowWire), [], 0⟩) ∧
    (∀ (m : NoteMap) (req : DepositReq) (o : PcDepositOracle) (cfg : PoolConfig),
      POOL_CONFIGS (upper req.token) = some cfg → req.amount < cfg.minDeposit →
        pcDeposit m req o = ⟨.error (.amountBelowMinimum req.amount cfg.minDeposit
          (upper req.token) Provider.privacyCash), m, []⟩) ∧
    (∀ (m : NoteMap) (req : TransferReq) (o1 : PcDepositOracle) (o2 : PcWithdrawOracle)
      (cfg : PoolConfig),
      POOL_CONFIGS (upper req.token) = some cfg → req.amount < cfg.minDeposit →
        pcTransfer m req o1 o2 = ⟨.error (.amountBelowMinimum req.amount cfg.minDeposit
          (upper req.token) Provider.privacyCash), m, []⟩) ∧
    (∀ (req : SwWithdrawReq) (oracle : Nat → SwHttp) (a mn : ℚ) (tk : Str) (pv : Provider),
      (swWithdraw req oracle).outcome ≠ .error (.amountBelowMinimum a mn tk pv)) ∧
    (∀ (req : TransferReq) (chain : ChainRes) (a mn : ℚ) (tk : Str) (pv : Provider),
      (arciumTransfer req chain).outcome ≠ .error (.amountBelowMinimum a mn tk pv)) := by
  refine ⟨fun req o cfg h1 h2 => swTransfer_belowMin req o cfg h1 h2,
    fun req o c cfg h1 h2 => swDeposit_belowMin req o c cfg h1 h2,
    fun m req o cfg h1 h2 => pcDeposit_belowMin m req o cfg h1 h2,
    ?_, swWithdraw_no_min, arciumTransfer_no_min⟩
  intro m req o1 o2 cfg h1 h2
  simp only [pcTransfer, pcDeposit_belowMin m ⟨req.amount, req.token⟩ o1 cfg h1 h2]

/-- A withdraw request for 0.001 SOL — a tenth of the 0.01 SOL minimum. -/
def c3Req : SwWithdrawReq := ⟨1 / 1000, str "SOL", str "Recipient111"⟩

/-- A remote API that accepts immediately, reporting a fee of 2. -/
def c3Oracle : Nat → SwHttp := fun _ => SwHttp.reply true [] true (str "tx-ok") 2

/-- C3 (counterexample): a ShadowWire withdraw of 0.001 SOL — strictly
below the 0.01 SOL per-token minimum — does not fail with
`AmountBelowMinimum`: it signs a message, posts to the API and succeeds. -/
theorem claim_C3_counterexample :
    (1 / 1000 : ℚ) < 1 / 100 ∧
    SHADOWWIRE_TOKENS (upper (str "SOL")) = some ⟨9, 1 / 200, 1 / 100⟩ ∧
    (swWithdraw c3Req c3Oracle).outcome =
      .ok ⟨str "tx-ok", (1 / 1000 : ℚ) * (1 / 200)⟩ ∧
    (swWithdraw c3Req c3Oracle).effs =
      [Eff.signMsg (str "withdraw"), Eff.httpPost (str "/v1/withdraw")] :=
  ⟨by norm_num, rfl, rfl, rfl⟩

/-- C3 (witness): the checks that do exist fire at concrete below-minimum
inputs, with empty effect traces. -/
theorem claim_C3_minimum_checks_witness :
    swTransfer ⟨1 / 1000, str "SOL", str "R", PrivLevel.amountHidden⟩ c3Oracle =
      ⟨.error (.amountBelowMinimum (1 / 1000) (1 / 100) (upper (str "SOL"))
        Provider.shadowWire), [], 0⟩ ∧
    pcDeposit [] ⟨1 / 100, str "SOL"⟩
        ⟨List.replicate 31 1, List.replicate 31 2, 7, ChainRes.confirmed (str "s")⟩ =
      ⟨.error (.amountBelowMinimum (1 / 100) (1 / 10) (upper (str "SOL"))
        Provider.privacyCash), [], []⟩ := by
  constructor
  · exact claim_C3_minimum_checks.1 ⟨1 / 1000, str "SOL", str "R", PrivLevel.amountHidden⟩
      c3Oracle ⟨9, 1 / 200, 1 / 100⟩ rfl (by norm_num)
  · exact claim_C3_minimum_checks.2.2.1 [] ⟨1 / 100, str "SOL"⟩
      ⟨List.replicate 31 1, List.replicate 31 2, 7, ChainRes.confirmed (str "s")⟩
      ⟨str "So11111111111111111111111111111111111111112", 9, 1 / 10, 100, 500⟩
      rfl (by norm_num)

/-- A transfer request of 2 USDC (above the 1 USDC minimum). -/
def c4Req : SwTransferReq := ⟨2, str "USDC", str "RecipientAAA", PrivLevel.amountHidden⟩

/-- A remote API that answers every attempt with HTTP 404 and a
`recipient not found` body — a 4xx validation error. -/
def c4Oracle : Nat → SwHttp :=
  fun _ => SwHttp.reply false (str "recipient not found") false [] 0

/-- C4 (counterexample): against an API that always answers 404
`recipient not found`, `swTransfer` invokes the remote call three times —
the `RecipientNotFound` validation error is retried twice before being
raised — contradicting the claim that 4xx/validation errors are raised
immediately and never retried. -/
theorem claim_C4_counterexample :
    (swTransfer c4Req c4Oracle).calls = 3 ∧
    (swTransfer c4Req c4Oracle).outcome =
      .error (.recipientNotFound (str "RecipientAAA")) ∧
    (swTransfer c4Req c4Oracle).calls ≠ 1 :=
  ⟨rfl, rfl, by decide⟩

/-- C4 (amended): the `retry` wrapper in the ShadowWire operations is
called without a `shouldRetry` predicate, so the default — retry every
error — applies: when every attempt fails (transport, 5xx, or a 4xx
mapped to `RecipientNotFound` / `InsufficientBalance` / `Transaction`),
the full budget of 3 calls (`maxRetries = 2`) is used and the error of the
last attempt is raised only afterwards.  Business errors are therefore
retried exactly like transport errors, not raised immediately. -/
theorem claim_C4_business_errors_retried (req : SwTransferReq) (oracle : Nat → SwHttp)
    (cfg : SwTokenCfg) (hcfg : SHADOWWIRE_TOKENS (upper req.token) = some cfg)
    (hmin : ¬ req.amount < cfg.minAmount)
    (hfail : ∀ i, ∃ e,
      classifyTransfer req.amount (upper req.token) req.recipient (oracle i) = .error e) :
    (swTransfer req oracle).calls = 3 ∧
    (∀ e, classifyTransfer req.amount (upper req.token) req.recipient (oracle 2) = .error e →
      (swTransfer req oracle).outcome = .error e) := by
  simp only [swTransfer, hcfg, if_neg hmin, retryRun]
  obtain ⟨hcalls, hout⟩ := retryFrom_exhaust
    (fun i => classifyTransfer req.amount (upper req.token) req.recipient (oracle i))
    defaultShouldRetry 1000 10000
    (fun i => (hfail i).imp (fun e he => ⟨he, rfl⟩)) 2 0
  obtain ⟨e2, he2⟩ := hfail 2
  have hout2 : (retryFrom
      (fun i => classifyTransfer req.amount (upper req.token) req.recipient (oracle i))
      defaultShouldRetry 1000 10000 0 2).outcome = .error e2 := by
    rw [hout]
    simpa using he2
  rw [hout2]
  refine ⟨hcalls, fun e he => ?_⟩
  rw [he2] at he
  injection he with he3
  rw [he3]

/-- A second always-failing oracle: HTTP 400 with an `insufficient funds`
body. -/
def c4wOracle : Nat → SwHttp :=
  fun _ => SwHttp.reply false (str "insufficient funds") false [] 0

/-- C4 (witness): the amended behaviour at a concrete request against the
always-400 API: three calls, then the mapped `InsufficientBalance`. -/
theorem claim_C4_business_errors_retried_witness :
    (swTransfer ⟨2, str "USDC", str "R2", PrivLevel.amountHidden⟩ c4wOracle).calls = 3 ∧
    (swTransfer ⟨2, str "USDC", str "R2", PrivLevel.amountHidden⟩ c4wOracle).outcome =
      .error (.insufficientBalance 2 0 (upper (str "USDC"))) := by
  have h := claim_C4_business_errors_retried
    ⟨2, str "USDC", str "R2", PrivLevel.amountHidden⟩ c4wOracle ⟨6, 1 / 100, 1⟩
    rfl (by norm_num)
    (fun i => ⟨.insufficientBalance 2 0 (upper (str "USDC")), rfl⟩)
  exact ⟨h.1, h.2 (.insufficientBalance 2 0 (upper (str "USDC"))) rfl⟩

/-- C5: during a pool withdraw the local unspent-note map changes only on
success: every failure (missing note string, undecodable note, unsupported
token, failed submission or confirmation) leaves the map exactly as it was,
and a success removes precisely the decoded note's commitment from the map
after the chain confirmed the transaction. -/
theorem claim_C5_withdraw_atomicity (m : NoteMap) (req : PcWithdrawReq)
    (o : PcWithdrawOracle) :
    (∀ e, (pcWithdraw m req o).outcome = .error e → (pcWithdraw m req o).notes = m) ∧
    (∀ res, (pcWithdraw m req o).outcome = .ok res →
      ∃ nt, req.note.bind (fun s => (decodeNote s).bind noteOfRaw) = some nt ∧
        (pcWithdraw m req o).notes = mapDel m nt.commitment ∧
        o.chain = ChainRes.confirmed res.signature) := by
  rcases hn : req.note with _ | enc
  · constructor
    · intro e _; simp [pcWithdraw, hn]
    · intro res hres; simp [pcWithdraw, hn] at hres
  · rcases hd : (decodeNote enc).bind noteOfRaw with _ | nt
    · constructor
      · intro e _; simp [pcWithdraw, hn, hd]
      · intro res hres; simp [pcWithdraw, hn, hd] at hres
    · rcases hp : POOL_CONFIGS nt.token with _ | cfg
      · constructor
        · intro e _; simp [pcWithdraw, hn, hd, hp]
        · intro res hres; simp [pcWithdraw, hn, hd, hp] at hres
      · rcases hc : o.chain with sig | msg
        · constructor
          · intro e he; simp [pcWithdraw, hn, hd, hp, hc] at he
          · intro res hres
            simp only [pcWithdraw, hn, hd, hp, hc, Option.bind_some] at hres ⊢
            refine ⟨nt, by simp [hd], rfl, ?_⟩
            injection hres with h2
            rw [← h2]
        · constructor
          · intro e _; simp [pcWithdraw, hn, hd, hp, hc]
          · intro res hres; simp [pcWithdraw, hn, hd, hp, hc] at hres

/-- A concrete stored note keyed by its commitment. -/
def c5Note : DepositNote := ⟨str "cc1", str "nn1", str "ss1", 5, str "SOL", 11⟩

/-- A concrete one-note map. -/
def c5Map : NoteMap := [(str "cc1", c5Note)]

/-- C5 (witness): a withdraw whose confirmation fails keeps the map
unchanged, and a successful withdraw of an encoded note removes exactly its
commitment. -/
theorem claim_C5_withdraw_atomicity_witness :
    (pcWithdraw c5Map ⟨some (encodeNote c5Note), str "R"⟩
      ⟨List.replicate 64 '0', [], ChainRes.failed (str "boom")⟩).notes = c5Map ∧
    (pcWithdraw c5Map ⟨some (encodeNote c5Note), str "R"⟩
      ⟨List.replicate 64 '0', [], ChainRes.confirmed (str "sig")⟩).notes =
      mapDel c5Map c5Note.commitment := by
  constructor
  · exact (claim_C5_withdraw_atomicity c5Map ⟨some (encodeNote c5Note), str "R"⟩
      ⟨List.replicate 64 '0', [], ChainRes.failed (str "boom")⟩).1
      (.transactionErr (str "boom")) (by decide)
  · have hdec : (decodeNote (encodeNote c5Note)).bind noteOfRaw = some c5Note :=
      noteOfRaw_decode c5Note (by decide) (by decide) (by decide) (by decide)
        (by constructor <;> decide)
    have houtcome : (pcWithdraw c5Map ⟨some (encodeNote c5Note), str "R"⟩
        ⟨List.replicate 64 '0', [], ChainRes.confirmed (str "sig")⟩).outcome =
        .ok ⟨str "sig", (1 / 200 : ℚ) * c5Note.amount⟩ := by
      simp only [pcWithdraw, Option.bind_some, hdec]
      rfl
    obtain ⟨nt, hnt, hmap, _⟩ := (claim_C5_withdraw_atomicity c5Map
      ⟨some (encodeNote c5Note), str "R"⟩
      ⟨List.replicate 64 '0', [], ChainRes.confirmed (str "sig")⟩).2
      ⟨str "sig", (1 / 200 : ℚ) * c5Note.amount⟩ houtcome
    have hnt2 : (decodeNote (encodeNote c5Note)).bind noteOfRaw = some nt := hnt
    rw [hdec] at hnt2
    have hnc : nt = c5Note := (Option.some.inj hnt2).symm
    rw [hnc] at hmap
    exact hmap

/-- Deleting a freshly inserted key restores the original map. -/
theorem mapDel_mapSet_fresh (k : Str) (v : DepositNote) :
    ∀ m : NoteMap, (∀ p ∈ m, p.1 ≠ k) → mapDel (mapSet m k v) k = m := by
  intro m
  induction m with
  | nil =>
    intro _
    simp [mapSet, mapDel, List.filter]
  | cons p rest ih =>
    intro hfresh
    obtain ⟨k1, v1⟩ := p
    have hk1 : k1 ≠ k := hfresh (k1, v1) (by simp)
    simp only [mapSet, if_neg hk1, mapDel, List.filter_cons, decide_eq_true (by exact hk1)]
    rw [show (mapSet rest k v).filter (fun p => decide (p.1 ≠ k)) = mapDel (mapSet rest k v) k
      from rfl]
    rw [ih (fun p hp => hfresh p (by simp [hp]))]
    simp [hk1]

/-- Tokens with a pool configuration are safe JSON strings. -/
theorem pool_token_safe {t : Str} {cfg : PoolConfig}
    (h : POOL_CONFIGS t = some cfg) : safeStr t := by
  rcases POOL_CONFIGS_tokens h with rfl | rfl <;> decide

/-- The note a deposit draws from its randomness oracle. -/
def depNote (req : TransferReq) (o : PcDepositOracle) : DepositNote :=
  ⟨computeCommitment (bytesToHex o.secretBytes) (bytesToHex o.nullifierBytes),
    bytesToHex o.nullifierBytes, bytesToHex o.secretBytes,
    req.amount, upper req.token, o.now⟩

/-- C6: a pool transfer is a deposit of the requested amount followed by a
withdraw of the very note the deposit produced, to the requested recipient;
the reported fee is the deposit fee plus the withdraw fee
(0.5 % + 0.5 % of the amount), the withdraw consumed exactly the deposited
note (the map returns to its initial state when the commitment was fresh),
and the effect trace is the deposit's effects followed by the withdraw's. -/
theorem claim_C6_transfer_composition (m : NoteMap) (req : TransferReq)
    (o1 : PcDepositOracle) (o2 : PcWithdrawOracle) (cfg : PoolConfig)
    (sig1 sig2 : Str)
    (hcfg : POOL_CONFIGS (upper req.token) = some cfg)
    (hmin : ¬ req.amount < cfg.minDeposit) (hmax : ¬ cfg.maxDeposit < req.amount)
    (hanum : 0 ≤ req.amount.num) (haden : req.amount.den = 1)
    (hchain1 : o1.chain = ChainRes.confirmed sig1)
    (hchain2 : o2.chain = ChainRes.confirmed sig2)
    (hfresh : ∀ p ∈ m, p.1 ≠ (depNote req o1).commitment) :
    pcTransfer m req o1 o2 =
      ⟨.ok ⟨sig2, (1 / 200 : ℚ) * req.amount + (1 / 200 : ℚ) * req.amount,
          some cfg.anonymitySet⟩, m,
        [Eff.signTx (str "deposit"), Eff.sendTx, Eff.confirmTx,
         Eff.signTx (str "withdraw"), Eff.sendTx, Eff.confirmTx]⟩ := by
  have hdep : pcDeposit m ⟨req.amount, req.token⟩ o1 =
      ⟨.ok ⟨sig1, encodeNote (depNote req o1), (1 / 200 : ℚ) * req.amount⟩,
        mapSet m (depNote req o1).commitment (depNote req o1),
        [Eff.signTx (str "deposit"), Eff.sendTx, Eff.confirmTx]⟩ := by
    simp only [pcDeposit, hcfg, if_neg hmin, if_neg hmax, hchain1]
    rfl
  have hdec : (decodeNote (encodeNote (depNote req o1))).bind noteOfRaw =
      some (depNote req o1) :=
    noteOfRaw_decode (depNote req o1) (bytesToHex_safe _) (bytesToHex_safe _)
      (bytesToHex_safe _) (pool_token_safe hcfg) ⟨hanum, haden⟩
  have hw : pcWithdraw (mapSet m (depNote req o1).commitment (depNote req o1))
      ⟨some (encodeNote (depNote req o1)), req.recipient⟩ o2 =
      ⟨.ok ⟨sig2, (1 / 200 : ℚ) * (depNote req o1).amount⟩,
        mapDel (mapSet m (depNote req o1).commitment (depNote req o1))
          (depNote req o1).commitment,
        [Eff.signTx (str "withdraw"), Eff.sendTx, Eff.confirmTx]⟩ := by
    have hp : POOL_CONFIGS (depNote req o1).token = some cfg := hcfg
    simp only [pcWithdraw, hdec, hp, hchain2]
  simp only [pcTransfer, hdep]
  rw [hw]
  simp only [hcfg, Option.map_some]
  rw [mapDel_mapSet_fresh (depNote req o1).commitment (depNote req o1) m hfresh]
  rfl

/-- C6 (witness): a concrete 1 SOL transfer through an empty local map:
both legs confirm, the fee is 0.5 % + 0.5 %, the map returns to empty, and
the trace is deposit effects then withdraw effects. -/
theorem claim_C6_transfer_composition_witness :
    pcTransfer [] ⟨1, str "SOL", str "Recip"⟩
        ⟨List.replicate 31 3, List.replicate 31 4, 99, ChainRes.confirmed (str "sg1")⟩
        ⟨List.replicate 64 '0', [5], ChainRes.confirmed (str "sg2")⟩ =
      ⟨.ok ⟨str "sg2", (1 / 200 : ℚ) * 1 + (1 / 200 : ℚ) * 1, some 500⟩, [],
        [Eff.signTx (str "deposit"), Eff.sendTx, Eff.confirmTx,
         Eff.signTx (str "withdraw"), Eff.sendTx, Eff.confirmTx]⟩ :=
  claim_C6_transfer_composition [] ⟨1, str "SOL", str "Recip"⟩
    ⟨List.replicate 31 3, List.replicate 31 4, 99, ChainRes.confirmed (str "sg1")⟩
    ⟨List.replicate 64 '0', [5], ChainRes.confirmed (str "sg2")⟩
    ⟨str "So11111111111111111111111111111111111111112", 9, 1 / 10, 100, 500⟩
    (str "sg1") (str "sg2") rfl (by norm_num) (by norm_num) (by decide) (by decide)
    rfl rfl (by simp)
